import Mathlib

/-!
Shallow embedding of `src/mcp_client.py` from the `frappe-mcp` repository:
an interactive client that frames JSON messages with `Content-Length`
headers over a child process's stdio streams.

Python's `json.dumps` / `json.loads` are modelled by an executable
serializer and recursive-descent parser over a `Json` value type.  Numbers
are modelled as integers (floating point, `NaN`/`Infinity` and lone
surrogates are outside the model).  The child's stdout is modelled as the
text-mode character sequence that `proc.stdout` yields; the universal
newline translation performed by `text=True` is made explicit by
`translateNewlines`.
-/

namespace McpClient

/-- JSON values as handled by Python's `json` module, with numbers
restricted to integers (the client only ever sends integer ids). -/
inductive Json where
  | null
  | bool (b : Bool)
  | int (n : Int)
  | str (s : String)
  | arr (elems : List Json)
  | obj (members : List (String × Json))
  deriving Repr

/-- Decimal digit character for `d < 10`. -/
def digitChar (d : Nat) : Char := Char.ofNat (48 + d)

/-- Most-significant-first decimal digits of `n`; any `fuel ≥ n` suffices. -/
def natDigitsAux : Nat → Nat → List Char
  | 0, _ => []
  | _ + 1, 0 => []
  | fuel + 1, n + 1 =>
    natDigitsAux fuel ((n + 1) / 10) ++ [digitChar ((n + 1) % 10)]

/-- Decimal representation of a natural number, as Python's `str`. -/
def natRepr (n : Nat) : List Char := if n = 0 then ['0'] else natDigitsAux n n

/-- Decimal representation of an integer, as rendered by `json.dumps`. -/
def intRepr (i : Int) : List Char :=
  if i < 0 then '-' :: natRepr i.natAbs else natRepr i.toNat

/-- Lowercase hexadecimal digit for `d < 16`, as in Python's `'%04x'`. -/
def hexChar (d : Nat) : Char :=
  if d < 10 then Char.ofNat (48 + d) else Char.ofNat (87 + d)

/-- Four lowercase hex digits of `n < 0x10000` (a `\uXXXX` escape body). -/
def hex4 (n : Nat) : List Char :=
  [hexChar (n / 4096 % 16), hexChar (n / 256 % 16), hexChar (n / 16 % 16),
    hexChar (n % 16)]

/-- Escape one character the way `json.dumps` does with its default
`ensure_ascii=True`: two-character short escapes, literal printable ASCII,
and `\uXXXX` escapes (surrogate pairs above the basic plane). -/
def escChar (c : Char) : List Char :=
  if c = '"' then ['\\', '"']
  else if c = '\\' then ['\\', '\\']
  else if c = '\n' then ['\\', 'n']
  else if c = '\r' then ['\\', 'r']
  else if c = '\t' then ['\\', 't']
  else if c.toNat = 8 then ['\\', 'b']
  else if c.toNat = 12 then ['\\', 'f']
  else if 32 ≤ c.toNat ∧ c.toNat ≤ 126 then [c]
  else if c.toNat < 65536 then '\\' :: 'u' :: hex4 c.toNat
  else
    '\\' :: 'u' :: hex4 (55296 + (c.toNat - 65536) / 1024) ++
      '\\' :: 'u' :: hex4 (56320 + (c.toNat - 65536) % 1024)

/-- Escape every character of a string body. -/
def escList : List Char → List Char
  | [] => []
  | c :: cs => escChar c ++ escList cs

mutual

/-- Serialize a `Json` value exactly as Python's `json.dumps` does with
default arguments: separators `", "` and `": "`, `ensure_ascii=True`. -/
def emit : Json → List Char
  | .null => "null".data
  | .bool true => "true".data
  | .bool false => "false".data
  | .int i => intRepr i
  | .str s => '"' :: (escList s.data ++ ['"'])
  | .arr es => '[' :: (emitArr es ++ [']'])
  | .obj ms => '{' :: (emitObj ms ++ ['}'])

/-- Comma-separated serializations of array elements. -/
def emitArr : List Json → List Char
  | [] => []
  | [x] => emit x
  | x :: y :: xs => emit x ++ ',' :: ' ' :: emitArr (y :: xs)

/-- Comma-separated `"key": value` serializations of object members. -/
def emitObj : List (String × Json) → List Char
  | [] => []
  | [(k, v)] => '"' :: (escList k.data ++ '"' :: ':' :: ' ' :: emit v)
  | (k, v) :: m :: ms =>
    '"' :: (escList k.data ++ '"' :: ':' :: ' ' :: emit v) ++
      ',' :: ' ' :: emitObj (m :: ms)

end

/-- `json.dumps` on the model: the serialized text. -/
def dumps (v : Json) : String := ⟨emit v⟩

mutual

/-- Parser fuel sufficient for the serialization of a value. -/
def cost : Json → Nat
  | .arr es => 1 + costArr es
  | .obj ms => 1 + costObj ms
  | _ => 1

/-- Parser fuel sufficient for a serialized element list. -/
def costArr : List Json → Nat
  | [] => 1
  | x :: xs => 1 + cost x + costArr xs

/-- Parser fuel sufficient for a serialized member list. -/
def costObj : List (String × Json) → Nat
  | [] => 1
  | (_, v) :: ms => 1 + cost v + costObj ms

end

/-- Whitespace skipped by Python's JSON decoder (`' \t\n\r'`). -/
def jsonWs (c : Char) : Bool :=
  c = ' ' || c = '\t' || c = '\n' || c = '\r'

/-- Skip JSON whitespace. -/
def skipWs (s : List Char) : List Char := s.dropWhile jsonWs

/-- ASCII decimal digit test (`\d` in the header regex, digits in numbers). -/
def isDigit (c : Char) : Bool := 48 ≤ c.toNat && c.toNat ≤ 57

/-- Numeric value of a decimal digit character. -/
def digitVal (c : Char) : Nat := c.toNat - 48

/-- Value of a most-significant-first digit string, as Python's `int`. -/
def natFromDigits (ds : List Char) : Nat :=
  ds.foldl (fun a c => a * 10 + digitVal c) 0

/-- Value of a hex digit character, accepting both cases as `json.loads`. -/
def hexVal (c : Char) : Option Nat :=
  if 48 ≤ c.toNat ∧ c.toNat ≤ 57 then some (c.toNat - 48)
  else if 97 ≤ c.toNat ∧ c.toNat ≤ 102 then some (c.toNat - 87)
  else if 65 ≤ c.toNat ∧ c.toNat ≤ 70 then some (c.toNat - 55)
  else none

/-- Read four hex digits (the body of a `\uXXXX` escape), returning their
value and the remaining input. -/
def readHex4 : List Char → Option (Nat × List Char)
  | h1 :: h2 :: h3 :: h4 :: r =>
    match hexVal h1, hexVal h2, hexVal h3, hexVal h4 with
    | some a, some b, some x, some y =>
      some (((a * 16 + b) * 16 + x) * 16 + y, r)
    | _, _, _, _ => none
  | _ => none

/-- Decode one `\uXXXX` escape body (after the `\u`), combining a high
surrogate with a following `\uXXXX` low surrogate as `json.loads` does.
Lone surrogates are not representable in the model.  Returns the decoded
character and the remaining input. -/
def decodeU (s : List Char) : Option (Char × List Char) :=
  match readHex4 s with
  | none => none
  | some (n, r2) =>
    if n < 55296 ∨ 57344 ≤ n then some (Char.ofNat n, r2)
    else if n < 56320 then
      match r2 with
      | c1 :: c2 :: rest2 =>
        if c1 = '\\' ∧ c2 = 'u' then
          match readHex4 rest2 with
          | some (m, r3) =>
            if 56320 ≤ m ∧ m < 57344 then
              some (Char.ofNat (65536 + (n - 55296) * 1024 + (m - 56320)), r3)
            else none
          | none => none
        else none
      | _ => none
    else none

/-- Read a JSON string body after the opening quote, undoing the escapes
that `json.dumps` can produce, up to the closing quote.  Returns the
decoded characters and the remaining input.  `none` models a
`json.JSONDecodeError` (strict mode: raw control characters are rejected;
lone surrogates are outside the model). -/
def parseStringBody : Nat → List Char → Option (List Char × List Char)
  | 0, _ => none
  | _ + 1, [] => none
  | fuel + 1, c :: r =>
    if c = '"' then some ([], r)
    else if c = '\\' then
      match r with
      | [] => none
      | e :: r1 =>
        if e = 'u' then
          match decodeU r1 with
          | some (d, r2) => (fun p => (d :: p.1, p.2)) <$> parseStringBody fuel r2
          | none => none
        else
          let esc : Option Char :=
            if e = '"' then some '"'
            else if e = '\\' then some '\\'
            else if e = '/' then some '/'
            else if e = 'b' then some (Char.ofNat 8)
            else if e = 'f' then some (Char.ofNat 12)
            else if e = 'n' then some '\n'
            else if e = 'r' then some '\r'
            else if e = 't' then some '\t'
            else none
          match esc with
          | some d => (fun p => (d :: p.1, p.2)) <$> parseStringBody fuel r1
          | none => none
    else if c.toNat < 32 then none
    else (fun p => (c :: p.1, p.2)) <$> parseStringBody fuel r

/-- Read an unsigned JSON integer token: `0`, or a nonzero digit followed
by a greedy digit run (the strict `0|[1-9][0-9]*` grammar). -/
def parseNatTok : List Char → Option (Nat × List Char)
  | [] => none
  | c :: r =>
    if c = '0' then some (0, r)
    else if isDigit c then
      some (natFromDigits (c :: r.takeWhile isDigit), r.dropWhile isDigit)
    else none

/-- Read a JSON number token with optional minus sign.  Fractions and
exponents are outside the integer model. -/
def parseNumber : List Char → Option (Int × List Char)
  | [] => none
  | c :: r =>
    if c = '-' then (fun p => (-(p.1 : Int), p.2)) <$> parseNatTok r
    else (fun p => ((p.1 : Int), p.2)) <$> parseNatTok (c :: r)

mutual

/-- Read one JSON value at the head of the input (no leading whitespace),
as Python's scanner does.  The fuel decreases at each nested value; any
fuel at least `cost` of the value suffices. -/
def parseValue : Nat → List Char → Option (Json × List Char)
  | 0, _ => none
  | fuel + 1, s =>
    match s with
    | [] => none
    | c :: r =>
      if c = 'n' then
        match r with
        | c1 :: c2 :: c3 :: r1 =>
          if c1 = 'u' ∧ c2 = 'l' ∧ c3 = 'l' then some (.null, r1) else none
        | _ => none
      else if c = 't' then
        match r with
        | c1 :: c2 :: c3 :: r1 =>
          if c1 = 'r' ∧ c2 = 'u' ∧ c3 = 'e' then some (.bool true, r1) else none
        | _ => none
      else if c = 'f' then
        match r with
        | c1 :: c2 :: c3 :: c4 :: r1 =>
          if c1 = 'a' ∧ c2 = 'l' ∧ c3 = 's' ∧ c4 = 'e' then
            some (.bool false, r1)
          else none
        | _ => none
      else if c = '"' then
        (fun p => (.str ⟨p.1⟩, p.2)) <$> parseStringBody (r.length + 1) r
      else if c = '[' then
        match skipWs r with
        | [] => none
        | d :: r1 =>
          if d = ']' then some (.arr [], r1)
          else (fun p => (.arr p.1, p.2)) <$> parseElems fuel (d :: r1)
      else if c = '{' then
        match skipWs r with
        | [] => none
        | d :: r1 =>
          if d = '}' then some (.obj [], r1)
          else (fun p => (.obj p.1, p.2)) <$> parseMembers fuel (d :: r1)
      else (fun p => (.int p.1, p.2)) <$> parseNumber (c :: r)

/-- Read the elements of a nonempty JSON array up to the closing bracket. -/
def parseElems : Nat → List Char → Option (List Json × List Char)
  | 0, _ => none
  | fuel + 1, s => do
    let (v, r) ← parseValue fuel s
    match skipWs r with
    | [] => none
    | d :: r1 =>
      if d = ']' then some ([v], r1)
      else if d = ',' then
        (fun p => (v :: p.1, p.2)) <$> parseElems fuel (skipWs r1)
      else none

/-- Read the members of a nonempty JSON object up to the closing brace. -/
def parseMembers : Nat → List Char → Option (List (String × Json) × List Char)
  | 0, _ => none
  | fuel + 1, s =>
    match s with
    | c :: r =>
      if c = '"' then do
        let (k, r1) ← parseStringBody (r.length + 1) r
        match skipWs r1 with
        | [] => none
        | d0 :: r2 =>
          if d0 = ':' then do
            let (v, r3) ← parseValue fuel (skipWs r2)
            match skipWs r3 with
            | [] => none
            | d :: r4 =>
              if d = '}' then some ([(⟨k⟩, v)], r4)
              else if d = ',' then
                (fun p => ((⟨k⟩, v) :: p.1, p.2)) <$> parseMembers fuel (skipWs r4)
              else none
          else none
      else none
    | [] => none

end

/-- Model of Python's `json.loads`: skip surrounding whitespace, read one
JSON value, and require the input to be fully consumed (`Extra data`
otherwise).  `none` models a raised `json.JSONDecodeError`, which carries
the document it was parsing. -/
def loads (s : String) : Option Json := do
  let cs := skipWs s.data
  let (v, r) ← parseValue (2 * cs.length + 2) cs
  if skipWs r = [] then some v else none

/-- One `readline()` on the text stream `s`: everything up to and
including the first newline, the whole remainder when no newline is
present, and the empty string once the stream is exhausted (Python's
end-of-file result). -/
def readLine : List Char → List Char × List Char
  | [] => ([], [])
  | c :: r =>
    if c = '\n' then ([c], r)
    else
      let p := readLine r
      (c :: p.1, p.2)

/-- Whitespace stripped by Python's `str.strip()` (its ASCII part). -/
def pyIsSpace (c : Char) : Bool :=
  c = ' ' || c = '\t' || c = '\n' || c = '\r' ||
    c = Char.ofNat 11 || c = Char.ofNat 12

/-- `str.strip()`: drop whitespace from both ends. -/
def pyStrip (s : List Char) : List Char :=
  ((s.reverse.dropWhile pyIsSpace).reverse).dropWhile pyIsSpace

/-- `str.lower()` on the ASCII range, as used for the exit check. -/
def pyLower (s : List Char) : List Char := s.map Char.toLower

/-- `re.match(r"Content-Length: (\d+)", line)`: the pattern must match a
prefix of the line, and the group is the greedy leading digit run. -/
def matchContentLength (line : List Char) : Option Nat :=
  if ("Content-Length: ".data).isPrefixOf line then
    let ds := (line.drop 16).takeWhile isDigit
    if ds = [] then none else some (natFromDigits ds)
  else none

/-- One header line's effect on the stored `content_length` in
`send_request`: only lines starting with `Content-Length` are inspected,
and only a successful regex match overwrites the stored value. -/
def processHeaderLine (cl : Option Nat) (line : List Char) : Option Nat :=
  if ("Content-Length".data).isPrefixOf line then
    match matchContentLength line with
    | some n => some n
    | none => cl
  else cl

/-- The header-reading `while True:` loop of `send_request`, run for at
most `fuel` iterations: read a line; an empty read (`if not line:`) just
retries; otherwise the stripped line is checked for `Content-Length` and
an empty stripped line ends the headers.  `none` means the loop was still
running when the fuel ran out. -/
def headerLoop : Nat → Option Nat → List Char → Option (Option Nat × List Char)
  | 0, _, _ => none
  | fuel + 1, cl, s =>
    let p := readLine s
    if p.1 = [] then headerLoop fuel cl p.2
    else
      let l := pyStrip p.1
      let cl1 := processHeaderLine cl l
      if l = [] then some (cl1, p.2) else headerLoop fuel cl1 p.2

/-- Result of the read-and-decode phase of `send_request`. -/
inductive ReadResult where
  | ok (v : Json) (rest : List Char)
  | jsonError (doc : List Char) (rest : List Char)
  deriving Repr

/-- The decode path of `send_request`: run the header loop, then
`proc.stdout.read(content_length)` — which reads that many characters, or
everything to end of stream when `content_length` is still `None` — and
finally `json.loads` on the body.  `jsonError` models the uncaught
`json.JSONDecodeError`, which carries the document; `none` means the
header loop never finished within `fuel` iterations. -/
def decodeFrame (fuel : Nat) (s : List Char) : Option ReadResult :=
  match headerLoop fuel none s with
  | none => none
  | some (cl, s1) =>
    let body := match cl with
      | some n => s1.take n
      | none => s1
    let s2 := match cl with
      | some n => s1.drop n
      | none => ([] : List Char)
    match loads ⟨body⟩ with
    | some v => some (.ok v s2)
    | none => some (.jsonError body s2)

/-- The write side of `send_request`:
`header = f"Content-Length: {len(raw)}\r\n\r\n"` followed by the body,
where `len(raw)` counts the characters of the serialized request. -/
def encodeFrame (r : Json) : List Char :=
  "Content-Length: ".data ++ natRepr (emit r).length ++
    '\r' :: '\n' :: '\r' :: '\n' :: emit r

/-- Universal newline translation performed by the `text=True` pipe:
`"\r\n"` and a lone `"\r"` both become `"\n"` on reading. -/
def translateNewlines : List Char → List Char
  | [] => []
  | c :: r =>
    if c = '\r' then
      match r with
      | [] => ['\n']
      | d :: r1 =>
        if d = '\n' then '\n' :: translateNewlines r1
        else '\n' :: translateNewlines (d :: r1)
    else c :: translateNewlines r
termination_by s => s.length
decreasing_by all_goals simp <;> omega

/-- The request value built by the main loop:
`{"id": req_id, "method": method, "params": params}`. -/
def mkRequest (i : Int) (method : String) (params : Json) : Json :=
  .obj [("id", .int i), ("method", .str method), ("params", params)]

/-- How a run of the interactive loop ends. -/
inductive LoopOutcome where
  | exited
  | inputClosed
  | crashed (doc : List Char)
  | hungInHeaders
  deriving Repr

/-- State carried across loop iterations: the `req_id` counter, the
remaining child stdout, the frames written to child stdin (oldest first),
and the ids of the requests actually sent. -/
structure LoopState where
  reqId : Nat
  stream : List Char
  written : List (List Char)
  sentIds : List Nat
  deriving Repr

/-- The `while True:` main loop of the client, driven by a finite script
of user input lines (`input()` answers, in order).  An iteration reads a
method, checks the exit sentinel, reads a params string, parses it
(`continue` on `json.JSONDecodeError`), then builds the request,
increments `req_id` and performs `send_request`.  `crashed` models an
uncaught `json.JSONDecodeError` escaping from `send_request` and killing
the process; `hungInHeaders` models the header loop exceeding `fuel`
iterations.  `inputClosed` means the script ran out. -/
def runLoop (fuel : Nat) : List String → LoopState → LoopOutcome × LoopState
  | [], st => (.inputClosed, st)
  | m :: rest, st =>
    let method := pyStrip m.data
    if pyLower method = "exit".data ∨ pyLower method = "quit".data then
      (.exited, st)
    else
      match rest with
      | [] => (.inputClosed, st)
      | p :: rest1 =>
        let ps := pyStrip p.data
        let params : Option Json := if ps = [] then some (.obj []) else loads ⟨ps⟩
        match params with
        | none => runLoop fuel rest1 st
        | some params =>
          let req := mkRequest st.reqId ⟨method⟩ params
          let st1 : LoopState :=
            { reqId := st.reqId + 1
              stream := st.stream
              written := st.written ++ [encodeFrame req]
              sentIds := st.sentIds ++ [st.reqId] }
          match decodeFrame fuel st1.stream with
          | none => (.hungInHeaders, st1)
          | some (.jsonError doc rest2) => (.crashed doc, { st1 with stream := rest2 })
          | some (.ok _ rest2) => runLoop fuel rest1 { st1 with stream := rest2 }

/-- The fresh state of a session: `req_id = 1`, nothing written or sent. -/
def initState (stream : List Char) : LoopState :=
  { reqId := 1, stream := stream, written := [], sentIds := [] }

/-- Checks that no line of the stream strips to the empty string, i.e.
the stream ends before any blank header-terminator line; any
`fuel ≥ s.length` gives the true answer. -/
def noBlankLinesF : Nat → List Char → Bool
  | 0, _ => true
  | fuel + 1, s =>
    if s = [] then true
    else
      let p := readLine s
      !(pyStrip p.1 = []) && noBlankLinesF fuel p.2

/-- Header lines joined with the line terminator (in translated form). -/
def joinLines : List (List Char) → List Char
  | [] => []
  | l :: ls => l ++ '\n' :: joinLines ls

theorem toNat_ofNat_valid {n : Nat} (h : n.isValidChar) :
    (Char.ofNat n).toNat = n := by
  unfold Char.ofNat
  rw [dif_pos h]
  rfl

theorem toNat_ofNat_small {n : Nat} (h : n < 55296) :
    (Char.ofNat n).toNat = n :=
  toNat_ofNat_valid (Or.inl h)

theorem char_ne_of_toNat {a b : Char} (h : a.toNat ≠ b.toNat) : a ≠ b :=
  fun e => h (e ▸ rfl)

theorem char_eq_of_toNat {a b : Char} (h : a.toNat = b.toNat) : a = b := by
  apply Char.ext
  exact UInt32.toNat.inj h

theorem char_valid_nat (c : Char) :
    c.toNat < 55296 ∨ (57343 < c.toNat ∧ c.toNat < 1114112) := c.valid

theorem isDigit_iff {c : Char} : isDigit c = true ↔ 48 ≤ c.toNat ∧ c.toNat ≤ 57 := by
  simp [isDigit]

theorem digitChar_toNat {d : Nat} (h : d < 10) : (digitChar d).toNat = 48 + d :=
  toNat_ofNat_small (by omega)

theorem isDigit_digitChar {d : Nat} (h : d < 10) : isDigit (digitChar d) = true := by
  rw [isDigit_iff, digitChar_toNat h]
  omega

theorem digitVal_digitChar {d : Nat} (h : d < 10) : digitVal (digitChar d) = d := by
  simp [digitVal, digitChar_toNat h]

theorem digitChar_ne_zero {d : Nat} (h1 : d < 10) (h2 : d ≠ 0) :
    digitChar d ≠ '0' := by
  apply char_ne_of_toNat
  rw [digitChar_toNat h1]
  show 48 + d ≠ 48
  omega

theorem natDigitsAux_zero (f : Nat) : natDigitsAux f 0 = [] := by
  cases f <;> rfl

theorem natDigitsAux_digits {f : Nat} :
    ∀ {n : Nat}, ∀ c ∈ natDigitsAux f n, isDigit c = true := by
  induction f with
  | zero => intro n c hc; simp [natDigitsAux] at hc
  | succ f ih =>
    intro n c hc
    cases n with
    | zero => simp [natDigitsAux] at hc
    | succ m =>
      rw [natDigitsAux] at hc
      rcases List.mem_append.mp hc with h | h
      · exact ih c h
      · rcases List.mem_singleton.mp h with rfl
        exact isDigit_digitChar (by omega)

theorem natFromDigits_append (xs : List Char) (c : Char) :
    natFromDigits (xs ++ [c]) = 10 * natFromDigits xs + digitVal c := by
  simp [natFromDigits, List.foldl_append]
  omega

theorem natFromDigits_natDigitsAux {f : Nat} :
    ∀ {n : Nat}, n ≤ f → natFromDigits (natDigitsAux f n) = n := by
  induction f with
  | zero =>
    intro n h
    have : n = 0 := by omega
    subst this
    rfl
  | succ f ih =>
    intro n h
    cases n with
    | zero => rfl
    | succ m =>
      rw [natDigitsAux, natFromDigits_append, ih (by omega),
        digitVal_digitChar (by omega)]
      omega

theorem natDigitsAux_head {f : Nat} :
    ∀ {n : Nat}, n ≤ f → 0 < n →
      ∃ d ds, natDigitsAux f n = d :: ds ∧ isDigit d = true ∧ d ≠ '0' := by
  induction f with
  | zero => intro n h1 h2; omega
  | succ f ih =>
    intro n h1 h2
    cases n with
    | zero => omega
    | succ m =>
      rw [natDigitsAux]
      by_cases hq : (m + 1) / 10 = 0
      · rw [hq, natDigitsAux_zero]
        refine ⟨digitChar ((m + 1) % 10), [], rfl, isDigit_digitChar (by omega), ?_⟩
        have hlt : m + 1 < 10 := by omega
        exact digitChar_ne_zero (by omega) (by omega)
      · obtain ⟨d, ds, he, hd, hz⟩ := ih (n := (m + 1) / 10) (by omega) (by omega)
        exact ⟨d, ds ++ [digitChar ((m + 1) % 10)], by rw [he]; rfl, hd, hz⟩

theorem natRepr_head (n : Nat) :
    ∃ d ds, natRepr n = d :: ds ∧ isDigit d = true ∧
      (0 < n → d ≠ '0') := by
  unfold natRepr
  by_cases h : n = 0
  · rw [if_pos h]
    exact ⟨'0', [], rfl, by decide, by omega⟩
  · rw [if_neg h]
    obtain ⟨d, ds, he, hd, hz⟩ := natDigitsAux_head (Nat.le_refl n) (by omega)
    exact ⟨d, ds, he, hd, fun _ => hz⟩

theorem natRepr_digits {n : Nat} : ∀ c ∈ natRepr n, isDigit c = true := by
  intro c hc
  unfold natRepr at hc
  by_cases h : n = 0
  · rw [if_pos h] at hc
    rcases List.mem_singleton.mp hc with rfl
    decide
  · rw [if_neg h] at hc
    exact natDigitsAux_digits c hc

theorem natFromDigits_natRepr (n : Nat) : natFromDigits (natRepr n) = n := by
  unfold natRepr
  by_cases h : n = 0
  · rw [if_pos h, h]; rfl
  · rw [if_neg h]
    exact natFromDigits_natDigitsAux (Nat.le_refl n)

/-- The next character of `rest` (if any) is not a digit, so a greedy
digit run stops exactly at the boundary. -/
def noDigitHead : List Char → Bool
  | [] => true
  | c :: _ => !isDigit c

theorem takeWhile_digits_append {ds rest : List Char}
    (h1 : ∀ c ∈ ds, isDigit c = true) (h2 : noDigitHead rest = true) :
    (ds ++ rest).takeWhile isDigit = ds ∧ (ds ++ rest).dropWhile isDigit = rest := by
  induction ds with
  | nil =>
    cases rest with
    | nil => exact ⟨rfl, rfl⟩
    | cons c r =>
      have : isDigit c = false := by
        simpa [noDigitHead] using h2
      simp [List.takeWhile_cons, List.dropWhile_cons, this]
  | cons d ds ih =>
    have hd : isDigit d = true := h1 d (by simp)
    have := ih (fun c hc => h1 c (by simp [hc]))
    simp [List.takeWhile_cons, List.dropWhile_cons, hd, this.1, this.2]

theorem parseNatTok_natRepr (n : Nat) (rest : List Char)
    (h : noDigitHead rest = true) :
    parseNatTok (natRepr n ++ rest) = some (n, rest) := by
  obtain ⟨d, ds, he, hd, hz⟩ := natRepr_head n
  by_cases h0 : n = 0
  · subst h0
    cases he.symm.trans (by rfl : natRepr 0 = ['0']) with
    | _ => rw [(by rfl : natRepr 0 = ['0'])]; simp [parseNatTok]
  · have hz' : d ≠ '0' := hz (by omega)
    have hall : ∀ c ∈ ds, isDigit c = true := by
      intro c hc
      exact natRepr_digits c (by rw [he]; simp [hc])
    obtain ⟨ht, hdr⟩ := takeWhile_digits_append hall h
    rw [he]
    show parseNatTok (d :: (ds ++ rest)) = some (n, rest)
    rw [parseNatTok, if_neg hz', if_pos hd, ht, hdr]
    have : natFromDigits (d :: ds) = n := by
      rw [← he, natFromDigits_natRepr]
    rw [this]

theorem parseNumber_intRepr (i : Int) (rest : List Char)
    (h : noDigitHead rest = true) :
    parseNumber (intRepr i ++ rest) = some (i, rest) := by
  by_cases hneg : i < 0
  · rw [intRepr, if_pos hneg]
    show parseNumber ('-' :: (natRepr i.natAbs ++ rest)) = some (i, rest)
    rw [parseNumber, if_pos rfl, parseNatTok_natRepr _ _ h]
    simp only [Option.map_eq_map, Option.map_some]
    have : -(i.natAbs : Int) = i := by omega
    rw [this]
  · rw [intRepr, if_neg hneg]
    obtain ⟨d, ds, he, hd, _⟩ := natRepr_head i.toNat
    rw [he]
    show parseNumber (d :: (ds ++ rest)) = some (i, rest)
    have hne : d ≠ '-' := by
      apply char_ne_of_toNat
      have := isDigit_iff.mp hd
      show d.toNat ≠ 45
      omega
    rw [parseNumber, if_neg hne, ← List.cons_append, ← he,
      parseNatTok_natRepr _ _ h]
    simp only [Option.map_eq_map, Option.map_some]
    have : (i.toNat : Int) = i := by omega
    rw [this]

theorem hexVal_hexChar {d : Nat} (h : d < 16) : hexVal (hexChar d) = some d := by
  unfold hexChar hexVal
  by_cases h10 : d < 10
  · rw [if_pos h10, toNat_ofNat_small (by omega), if_pos (by omega)]
    simp
  · rw [if_neg h10, toNat_ofNat_small (by omega), if_neg (by omega),
      if_pos (by omega)]
    simp

theorem psb_quote (fuel : Nat) (r : List Char) :
    parseStringBody (fuel + 1) ('"' :: r) = some ([], r) := rfl

theorem psb_esc_quote (fuel : Nat) (r : List Char) :
    parseStringBody (fuel + 1) ('\\' :: '"' :: r) =
      (fun p => ('"' :: p.1, p.2)) <$> parseStringBody fuel r := rfl

theorem psb_esc_bs (fuel : Nat) (r : List Char) :
    parseStringBody (fuel + 1) ('\\' :: '\\' :: r) =
      (fun p => ('\\' :: p.1, p.2)) <$> parseStringBody fuel r := rfl

theorem psb_esc_n (fuel : Nat) (r : List Char) :
    parseStringBody (fuel + 1) ('\\' :: 'n' :: r) =
      (fun p => ('\n' :: p.1, p.2)) <$> parseStringBody fuel r := rfl

theorem psb_esc_r (fuel : Nat) (r : List Char) :
    parseStringBody (fuel + 1) ('\\' :: 'r' :: r) =
      (fun p => ('\r' :: p.1, p.2)) <$> parseStringBody fuel r := rfl

theorem psb_esc_t (fuel : Nat) (r : List Char) :
    parseStringBody (fuel + 1) ('\\' :: 't' :: r) =
      (fun p => ('\t' :: p.1, p.2)) <$> parseStringBody fuel r := rfl

theorem psb_esc_b (fuel : Nat) (r : List Char) :
    parseStringBody (fuel + 1) ('\\' :: 'b' :: r) =
      (fun p => (Char.ofNat 8 :: p.1, p.2)) <$> parseStringBody fuel r := rfl

theorem psb_esc_f (fuel : Nat) (r : List Char) :
    parseStringBody (fuel + 1) ('\\' :: 'f' :: r) =
      (fun p => (Char.ofNat 12 :: p.1, p.2)) <$> parseStringBody fuel r := rfl

theorem psb_u (fuel : Nat) (r1 : List Char) :
    parseStringBody (fuel + 1) ('\\' :: 'u' :: r1) =
      match decodeU r1 with
      | some (d, r2) => (fun p => (d :: p.1, p.2)) <$> parseStringBody fuel r2
      | none => none := rfl

theorem psb_lit (fuel : Nat) {c : Char} (h1 : c ≠ '"') (h2 : c ≠ '\\')
    (h3 : 32 ≤ c.toNat) (r : List Char) :
    parseStringBody (fuel + 1) (c :: r) =
      (fun p => (c :: p.1, p.2)) <$> parseStringBody fuel r := by
  show (if c = '"' then some ([], r)
    else if c = '\\' then _
    else if c.toNat < 32 then none
    else (fun p => (c :: p.1, p.2)) <$> parseStringBody fuel r) = _
  rw [if_neg h1, if_neg h2, if_neg (by omega)]

theorem readHex4_hex4 {n : Nat} (h : n < 65536) (r : List Char) :
    readHex4 (hex4 n ++ r) = some (n, r) := by
  show readHex4 (hexChar (n / 4096 % 16) :: hexChar (n / 256 % 16) ::
    hexChar (n / 16 % 16) :: hexChar (n % 16) :: r) = _
  rw [readHex4, hexVal_hexChar (by omega), hexVal_hexChar (by omega),
    hexVal_hexChar (by omega), hexVal_hexChar (by omega)]
  show some (((n / 4096 % 16 * 16 + n / 256 % 16) * 16 + n / 16 % 16) * 16 +
    n % 16, r) = _
  have e : ((n / 4096 % 16 * 16 + n / 256 % 16) * 16 + n / 16 % 16) * 16 +
      n % 16 = n := by omega
  rw [e]

theorem decodeU_single {n : Nat} (h16 : n < 65536)
    (hn : n < 55296 ∨ 57344 ≤ n) (r : List Char) :
    decodeU (hex4 n ++ r) = some (Char.ofNat n, r) := by
  simp only [decodeU, readHex4_hex4 h16]
  rw [if_pos hn]

theorem decodeU_pair {n : Nat} (h1 : 65536 ≤ n) (h2 : n < 1114112)
    (r : List Char) :
    decodeU (hex4 (55296 + (n - 65536) / 1024) ++ '\\' :: 'u' ::
      (hex4 (56320 + (n - 65536) % 1024) ++ r)) = some (Char.ofNat n, r) := by
  have e1 := readHex4_hex4 (show 55296 + (n - 65536) / 1024 < 65536 by omega)
    ('\\' :: 'u' :: (hex4 (56320 + (n - 65536) % 1024) ++ r))
  have e2 := readHex4_hex4 (show 56320 + (n - 65536) % 1024 < 65536 by omega) r
  rw [decodeU, e1]
  show (if 55296 + (n - 65536) / 1024 < 55296 ∨
      57344 ≤ 55296 + (n - 65536) / 1024 then
      some (Char.ofNat (55296 + (n - 65536) / 1024),
        '\\' :: 'u' :: (hex4 (56320 + (n - 65536) % 1024) ++ r))
    else _) = _
  rw [if_neg (by omega)]
  show (if 55296 + (n - 65536) / 1024 < 56320 then _ else none) = _
  rw [if_pos (by omega)]
  show (if ('\\' : Char) = '\\' ∧ ('u' : Char) = 'u' then
      (match readHex4 (hex4 (56320 + (n - 65536) % 1024) ++ r) with
      | some (m, r3) =>
        if 56320 ≤ m ∧ m < 57344 then
          some (Char.ofNat (65536 +
            (55296 + (n - 65536) / 1024 - 55296) * 1024 + (m - 56320)), r3)
        else none
      | none => none)
    else none) = _
  rw [if_pos ⟨rfl, rfl⟩, e2]
  show (if 56320 ≤ 56320 + (n - 65536) % 1024 ∧
      56320 + (n - 65536) % 1024 < 57344 then
      some (Char.ofNat (65536 + (55296 + (n - 65536) / 1024 - 55296) * 1024 +
        (56320 + (n - 65536) % 1024 - 56320)), r)
    else none) = _
  rw [if_pos (by omega)]
  have e : 65536 + (55296 + (n - 65536) / 1024 - 55296) * 1024 +
      (56320 + (n - 65536) % 1024 - 56320) = n := by omega
  rw [e]

theorem parseStringBody_escList {s : List Char} :
    ∀ {fuel : Nat}, s.length < fuel → ∀ rest,
      parseStringBody fuel (escList s ++ '"' :: rest) = some (s, rest) := by
  induction s with
  | nil =>
    intro fuel hf rest
    cases fuel with
    | zero => omega
    | succ f => exact psb_quote f rest
  | cons c cs ih =>
    intro fuel hf rest
    cases fuel with
    | zero => simp at hf
    | succ f =>
    have hfc : cs.length < f := by
      simp at hf
      omega
    rw [escList, List.append_assoc]
    by_cases h1 : c = '"'
    · subst h1
      rw [escChar, if_pos rfl]
      show parseStringBody (f + 1) ('\\' :: '"' :: (escList cs ++ '"' :: rest)) = _
      rw [psb_esc_quote, ih hfc]
      rfl
    · by_cases h2 : c = '\\'
      · subst h2
        rw [escChar, if_neg (by decide), if_pos rfl]
        show parseStringBody (f + 1) ('\\' :: '\\' :: (escList cs ++ '"' :: rest)) = _
        rw [psb_esc_bs, ih hfc]
        rfl
      · by_cases h3 : c = '\n'
        · subst h3
          rw [escChar, if_neg (by decide), if_neg (by decide), if_pos rfl]
          show parseStringBody (f + 1) ('\\' :: 'n' :: (escList cs ++ '"' :: rest)) = _
          rw [psb_esc_n, ih hfc]
          rfl
        · by_cases h4 : c = '\r'
          · subst h4
            rw [escChar, if_neg (by decide), if_neg (by decide),
              if_neg (by decide), if_pos rfl]
            show parseStringBody (f + 1) ('\\' :: 'r' :: (escList cs ++ '"' :: rest)) = _
            rw [psb_esc_r, ih hfc]
            rfl
          · by_cases h5 : c = '\t'
            · subst h5
              rw [escChar, if_neg (by decide), if_neg (by decide),
                if_neg (by decide), if_neg (by decide), if_pos rfl]
              show parseStringBody (f + 1) ('\\' :: 't' :: (escList cs ++ '"' :: rest)) = _
              rw [psb_esc_t, ih hfc]
              rfl
            · by_cases h6 : c.toNat = 8
              · rw [escChar, if_neg h1, if_neg h2, if_neg h3, if_neg h4,
                  if_neg h5, if_pos h6]
                have hc : c = Char.ofNat 8 := by
                  apply char_eq_of_toNat
                  rw [toNat_ofNat_small (by omega), h6]
                show parseStringBody (f + 1)
                  ('\\' :: 'b' :: (escList cs ++ '"' :: rest)) = _
                rw [psb_esc_b, ih hfc, hc]
                rfl
              · by_cases h7 : c.toNat = 12
                · rw [escChar, if_neg h1, if_neg h2, if_neg h3, if_neg h4,
                    if_neg h5, if_neg h6, if_pos h7]
                  have hc : c = Char.ofNat 12 := by
                    apply char_eq_of_toNat
                    rw [toNat_ofNat_small (by omega), h7]
                  show parseStringBody (f + 1)
                    ('\\' :: 'f' :: (escList cs ++ '"' :: rest)) = _
                  rw [psb_esc_f, ih hfc, hc]
                  rfl
                · by_cases h8 : 32 ≤ c.toNat ∧ c.toNat ≤ 126
                  · rw [escChar, if_neg h1, if_neg h2, if_neg h3, if_neg h4,
                      if_neg h5, if_neg h6, if_neg h7, if_pos h8]
                    show parseStringBody (f + 1)
                      (c :: (escList cs ++ '"' :: rest)) = _
                    rw [psb_lit f h1 h2 h8.1, ih hfc]
                    rfl
                  · by_cases h9 : c.toNat < 65536
                    · rw [escChar, if_neg h1, if_neg h2, if_neg h3, if_neg h4,
                        if_neg h5, if_neg h6, if_neg h7, if_neg h8, if_pos h9]
                      have hval : c.toNat < 55296 ∨ 57344 ≤ c.toNat := by
                        rcases char_valid_nat c with h | h
                        · exact Or.inl h
                        · exact Or.inr (by omega)
                      show parseStringBody (f + 1) ('\\' :: 'u' ::
                        (hex4 c.toNat ++ (escList cs ++ '"' :: rest))) = _
                      rw [psb_u, decodeU_single h9 hval]
                      show (fun p => (Char.ofNat c.toNat :: p.1, p.2)) <$>
                        parseStringBody f (escList cs ++ '"' :: rest) = _
                      rw [ih hfc, Char.ofNat_toNat]
                      rfl
                    · rw [escChar, if_neg h1, if_neg h2, if_neg h3, if_neg h4,
                        if_neg h5, if_neg h6, if_neg h7, if_neg h8, if_neg h9]
                      have hv : c.toNat < 1114112 := by
                        rcases char_valid_nat c with h | h <;> omega
                      show parseStringBody (f + 1) ('\\' :: 'u' ::
                        (hex4 (55296 + (c.toNat - 65536) / 1024) ++ '\\' :: 'u' ::
                          (hex4 (56320 + (c.toNat - 65536) % 1024) ++
                            (escList cs ++ '"' :: rest)))) = _
                      rw [psb_u, decodeU_pair (by omega) hv]
                      show (fun p => (Char.ofNat c.toNat :: p.1, p.2)) <$>
                        parseStringBody f (escList cs ++ '"' :: rest) = _
                      rw [ih hfc, Char.ofNat_toNat]
                      rfl

theorem skipWs_cons_false {c : Char} (h : jsonWs c = false) (t : List Char) :
    skipWs (c :: t) = c :: t := by
  simp [skipWs, List.dropWhile_cons, h]

theorem skipWs_space (t : List Char) : skipWs (' ' :: t) = skipWs t := rfl

theorem pv_null (fuel : Nat) (r : List Char) :
    parseValue (fuel + 1) ('n' :: 'u' :: 'l' :: 'l' :: r) =
      some (.null, r) := rfl

theorem pv_true (fuel : Nat) (r : List Char) :
    parseValue (fuel + 1) ('t' :: 'r' :: 'u' :: 'e' :: r) =
      some (.bool true, r) := rfl

theorem pv_false (fuel : Nat) (r : List Char) :
    parseValue (fuel + 1) ('f' :: 'a' :: 'l' :: 's' :: 'e' :: r) =
      some (.bool false, r) := rfl

theorem pv_str (fuel : Nat) (r : List Char) :
    parseValue (fuel + 1) ('"' :: r) =
      (fun p => (Json.str ⟨p.1⟩, p.2)) <$> parseStringBody (r.length + 1) r :=
  rfl

theorem pv_arr (fuel : Nat) (r : List Char) :
    parseValue (fuel + 1) ('[' :: r) =
      match skipWs r with
      | [] => none
      | d :: r1 =>
        if d = ']' then some (.arr [], r1)
        else (fun p => (Json.arr p.1, p.2)) <$> parseElems fuel (d :: r1) := rfl

theorem pv_obj (fuel : Nat) (r : List Char) :
    parseValue (fuel + 1) ('{' :: r) =
      match skipWs r with
      | [] => none
      | d :: r1 =>
        if d = '}' then some (.obj [], r1)
        else (fun p => (Json.obj p.1, p.2)) <$> parseMembers fuel (d :: r1) :=
  rfl

theorem pv_num (fuel : Nat) {c : Char} (h1 : c ≠ 'n') (h2 : c ≠ 't')
    (h3 : c ≠ 'f') (h4 : c ≠ '"') (h5 : c ≠ '[') (h6 : c ≠ '{')
    (r : List Char) :
    parseValue (fuel + 1) (c :: r) =
      (fun p => (Json.int p.1, p.2)) <$> parseNumber (c :: r) := by
  show (if c = 'n' then _
    else if c = 't' then _
    else if c = 'f' then _
    else if c = '"' then _
    else if c = '[' then _
    else if c = '{' then _
    else (fun p => (Json.int p.1, p.2)) <$> parseNumber (c :: r)) = _
  rw [if_neg h1, if_neg h2, if_neg h3, if_neg h4, if_neg h5, if_neg h6]

theorem escList_length (s : List Char) : s.length ≤ (escList s).length := by
  induction s with
  | nil => simp [escList]
  | cons c cs ih =>
    rw [escList]
    have : 1 ≤ (escChar c).length := by
      unfold escChar
      repeat' split
      all_goals simp [hex4]
    simp only [List.length_append, List.length_cons]
    omega

theorem intRepr_head (i : Int) :
    ∃ c cs, intRepr i = c :: cs ∧ 45 ≤ c.toNat ∧ c.toNat ≤ 57 := by
  unfold intRepr
  by_cases h : i < 0
  · rw [if_pos h]
    exact ⟨'-', _, rfl, by decide, by decide⟩
  · rw [if_neg h]
    obtain ⟨d, ds, he, hd, _⟩ := natRepr_head i.toNat
    have := isDigit_iff.mp hd
    exact ⟨d, ds, he, by omega, by omega⟩

theorem jsonWs_false_of_toNat {c : Char} (h1 : 33 ≤ c.toNat) :
    jsonWs c = false := by
  have e1 : c ≠ ' ' := char_ne_of_toNat (by intro e; rw [e] at h1; revert h1; decide)
  have e2 : c ≠ '\t' := char_ne_of_toNat (by intro e; rw [e] at h1; revert h1; decide)
  have e3 : c ≠ '\n' := char_ne_of_toNat (by intro e; rw [e] at h1; revert h1; decide)
  have e4 : c ≠ '\r' := char_ne_of_toNat (by intro e; rw [e] at h1; revert h1; decide)
  simp [jsonWs, e1, e2, e3, e4]

theorem emit_cons (v : Json) :
    ∃ c cs, emit v = c :: cs ∧ jsonWs c = false ∧ c ≠ ']' ∧ c ≠ '}' ∧
      c ≠ ',' := by
  cases v with
  | null => exact ⟨'n', _, rfl, by decide, by decide, by decide, by decide⟩
  | bool b =>
    cases b with
    | true => exact ⟨'t', _, rfl, by decide, by decide, by decide, by decide⟩
    | false => exact ⟨'f', _, rfl, by decide, by decide, by decide, by decide⟩
  | int i =>
    obtain ⟨c, cs, he, hlo, hhi⟩ := intRepr_head i
    refine ⟨c, cs, he, jsonWs_false_of_toNat (by omega), ?_, ?_, ?_⟩
    · exact char_ne_of_toNat (by intro e; rw [e] at hhi; revert hhi; decide)
    · exact char_ne_of_toNat (by intro e; rw [e] at hhi; revert hhi; decide)
    · exact char_ne_of_toNat (by intro e; rw [e] at hlo; revert hlo; decide)
  | str s => exact ⟨'"', _, rfl, by decide, by decide, by decide, by decide⟩
  | arr es => exact ⟨'[', _, rfl, by decide, by decide, by decide, by decide⟩
  | obj ms => exact ⟨'{', _, rfl, by decide, by decide, by decide, by decide⟩

theorem emit_null : emit .null = ['n', 'u', 'l', 'l'] := by rw [emit]

theorem emit_true : emit (.bool true) = ['t', 'r', 'u', 'e'] := by rw [emit]

theorem emit_false : emit (.bool false) = ['f', 'a', 'l', 's', 'e'] := by
  rw [emit]

theorem emit_int (i : Int) : emit (.int i) = intRepr i := by rw [emit]

theorem emit_str (s : String) :
    emit (.str s) = '"' :: (escList s.data ++ ['"']) := by rw [emit]

theorem emit_arr (es : List Json) :
    emit (.arr es) = '[' :: (emitArr es ++ [']']) := by rw [emit]

theorem emit_obj (ms : List (String × Json)) :
    emit (.obj ms) = '{' :: (emitObj ms ++ ['}']) := by rw [emit]

theorem emitArr_nil : emitArr [] = [] := by rw [emitArr]

theorem emitArr_one (x : Json) : emitArr [x] = emit x := by rw [emitArr]

theorem emitArr_cons (x y : Json) (xs : List Json) :
    emitArr (x :: y :: xs) = emit x ++ ',' :: ' ' :: emitArr (y :: xs) := by
  rw [emitArr]

theorem emitObj_nil : emitObj [] = [] := by rw [emitObj]

theorem emitObj_one (k : String) (v : Json) :
    emitObj [(k, v)] = '"' :: (escList k.data ++ '"' :: ':' :: ' ' :: emit v) := by
  rw [emitObj]

theorem emitObj_cons (k : String) (v : Json) (m : String × Json)
    (ms : List (String × Json)) :
    emitObj ((k, v) :: m :: ms) =
      '"' :: (escList k.data ++ '"' :: ':' :: ' ' :: emit v) ++
        ',' :: ' ' :: emitObj (m :: ms) := by
  rw [emitObj]

theorem cost_null : cost .null = 1 := by
  rw [cost]
  all_goals simp

theorem cost_bool (b : Bool) : cost (.bool b) = 1 := by
  rw [cost]
  all_goals simp

theorem cost_int (i : Int) : cost (.int i) = 1 := by
  rw [cost]
  all_goals simp

theorem cost_str (s : String) : cost (.str s) = 1 := by
  rw [cost]
  all_goals simp

theorem cost_arr (es : List Json) : cost (.arr es) = 1 + costArr es := by
  rw [cost]

theorem cost_obj (ms : List (String × Json)) :
    cost (.obj ms) = 1 + costObj ms := by rw [cost]

theorem costArr_nil : costArr [] = 1 := by rw [costArr]

theorem costArr_cons (x : Json) (xs : List Json) :
    costArr (x :: xs) = 1 + cost x + costArr xs := by rw [costArr]

theorem costObj_nil : costObj [] = 1 := by rw [costObj]

theorem costObj_cons (k : String) (v : Json) (ms : List (String × Json)) :
    costObj ((k, v) :: ms) = 1 + cost v + costObj ms := by rw [costObj]

theorem cost_pos (v : Json) : 1 ≤ cost v := by
  cases v <;>
    simp [cost_null, cost_bool, cost_int, cost_str, cost_arr, cost_obj]

theorem skipWs_emit (w : Json) (t : List Char) :
    skipWs (emit w ++ t) = emit w ++ t := by
  obtain ⟨c, cs, hec, hws, _, _, _⟩ := emit_cons w
  rw [hec, List.cons_append, skipWs_cons_false hws]

theorem emitArr_exposed (y : Json) (ys : List Json) (t : List Char) :
    ∃ c cs, emitArr (y :: ys) ++ t = c :: cs ∧ jsonWs c = false ∧
      c ≠ ']' ∧ c ≠ '}' ∧ c ≠ ',' := by
  obtain ⟨c, cs, hec, hws, h1, h2, h3⟩ := emit_cons y
  cases ys with
  | nil =>
    exact ⟨c, cs ++ t, by rw [emitArr_one, hec, List.cons_append], hws, h1,
      h2, h3⟩
  | cons m ms =>
    exact ⟨c, cs ++ ',' :: ' ' :: emitArr (m :: ms) ++ t,
      by rw [emitArr_cons, hec]; simp [List.cons_append, List.append_assoc],
      hws, h1, h2, h3⟩

theorem emitObj_exposed (k : String) (w : Json) (ms : List (String × Json))
    (t : List Char) :
    ∃ cs, emitObj ((k, w) :: ms) ++ t = '"' :: cs := by
  cases ms with
  | nil => exact ⟨_, by rw [emitObj_one, List.cons_append]⟩
  | cons m ms2 =>
    refine ⟨escList k.data ++ '"' :: ':' :: ' ' ::
      (emit w ++ ',' :: ' ' :: (emitObj (m :: ms2) ++ t)), ?_⟩
    rw [emitObj_cons]
    simp [List.cons_append]

theorem pe_step (fuel : Nat) (s : List Char) :
    parseElems (fuel + 1) s =
      (parseValue fuel s).bind (fun p =>
        match skipWs p.2 with
        | [] => none
        | d :: r1 =>
          if d = ']' then some ([p.1], r1)
          else if d = ',' then
            (fun q => (p.1 :: q.1, q.2)) <$> parseElems fuel (skipWs r1)
          else none) := rfl

theorem pm_quote (fuel : Nat) (r : List Char) :
    parseMembers (fuel + 1) ('"' :: r) =
      (parseStringBody (r.length + 1) r).bind (fun kp =>
        match skipWs kp.2 with
        | [] => none
        | d0 :: r2 =>
          if d0 = ':' then
            (parseValue fuel (skipWs r2)).bind (fun vp =>
              match skipWs vp.2 with
              | [] => none
              | d :: r4 =>
                if d = '}' then some ([(⟨kp.1⟩, vp.1)], r4)
                else if d = ',' then
                  (fun p => ((⟨kp.1⟩, vp.1) :: p.1, p.2)) <$>
                    parseMembers fuel (skipWs r4)
                else none)
          else none) := rfl

theorem pv_arr_dispatch (fuel : Nat) (c : Char) (cs : List Char) :
    (match (c :: cs : List Char) with
      | [] => none
      | d :: r1 =>
        if d = ']' then some (Json.arr [], r1)
        else (fun p => (Json.arr p.1, p.2)) <$> parseElems fuel (d :: r1)) =
      (if c = ']' then some (Json.arr [], cs)
        else (fun p => (Json.arr p.1, p.2)) <$> parseElems fuel (c :: cs)) := rfl

theorem pv_obj_dispatch (fuel : Nat) (c : Char) (cs : List Char) :
    (match (c :: cs : List Char) with
      | [] => none
      | d :: r1 =>
        if d = '}' then some (Json.obj [], r1)
        else (fun p => (Json.obj p.1, p.2)) <$> parseMembers fuel (d :: r1)) =
      (if c = '}' then some (Json.obj [], cs)
        else (fun p => (Json.obj p.1, p.2)) <$> parseMembers fuel (c :: cs)) :=
  rfl

theorem pe_close (fuel : Nat) (x : Json) (rest : List Char) :
    ((some (x, ']' :: rest) : Option (Json × List Char)).bind (fun p =>
      match skipWs p.2 with
      | [] => none
      | d :: r1 =>
        if d = ']' then some ([p.1], r1)
        else if d = ',' then
          (fun q => (p.1 :: q.1, q.2)) <$> parseElems fuel (skipWs r1)
        else none)) = some ([x], rest) := rfl

theorem pe_comma (fuel : Nat) (x : Json) (t : List Char) :
    ((some (x, ',' :: ' ' :: t) : Option (Json × List Char)).bind (fun p =>
      match skipWs p.2 with
      | [] => none
      | d :: r1 =>
        if d = ']' then some ([p.1], r1)
        else if d = ',' then
          (fun q => (p.1 :: q.1, q.2)) <$> parseElems fuel (skipWs r1)
        else none)) =
      (fun q => (x :: q.1, q.2)) <$> parseElems fuel (skipWs t) := rfl

theorem pm_colon (fuel : Nat) (kd : List Char) (t : List Char) :
    ((some (kd, ':' :: ' ' :: t) : Option (List Char × List Char)).bind
      (fun kp =>
        match skipWs kp.2 with
        | [] => none
        | d0 :: r2 =>
          if d0 = ':' then
            (parseValue fuel (skipWs r2)).bind (fun vp =>
              match skipWs vp.2 with
              | [] => none
              | d :: r4 =>
                if d = '}' then some ([(⟨kp.1⟩, vp.1)], r4)
                else if d = ',' then
                  (fun p => ((⟨kp.1⟩, vp.1) :: p.1, p.2)) <$>
                    parseMembers fuel (skipWs r4)
                else none)
          else none)) =
      (parseValue fuel (skipWs t)).bind (fun vp =>
        match skipWs vp.2 with
        | [] => none
        | d :: r4 =>
          if d = '}' then some ([(⟨kd⟩, vp.1)], r4)
          else if d = ',' then
            (fun p => ((⟨kd⟩, vp.1) :: p.1, p.2)) <$>
              parseMembers fuel (skipWs r4)
          else none) := rfl

theorem pm_vclose (fuel : Nat) (kd : List Char) (w : Json) (rest : List Char) :
    ((some (w, '}' :: rest) : Option (Json × List Char)).bind (fun vp =>
      match skipWs vp.2 with
      | [] => none
      | d :: r4 =>
        if d = '}' then some ([(⟨kd⟩, vp.1)], r4)
        else if d = ',' then
          (fun p => ((⟨kd⟩, vp.1) :: p.1, p.2)) <$>
            parseMembers fuel (skipWs r4)
        else none)) = some ([(⟨kd⟩, w)], rest) := rfl

theorem pm_vcomma (fuel : Nat) (kd : List Char) (w : Json) (t : List Char) :
    ((some (w, ',' :: ' ' :: t) : Option (Json × List Char)).bind (fun vp =>
      match skipWs vp.2 with
      | [] => none
      | d :: r4 =>
        if d = '}' then some ([(⟨kd⟩, vp.1)], r4)
        else if d = ',' then
          (fun p => ((⟨kd⟩, vp.1) :: p.1, p.2)) <$>
            parseMembers fuel (skipWs r4)
        else none)) =
      (fun p => ((⟨kd⟩, w) :: p.1, p.2)) <$> parseMembers fuel (skipWs t) :=
  rfl

theorem parse_emit : ∀ fuel : Nat,
    (∀ v rest, cost v ≤ fuel → noDigitHead rest = true →
        parseValue fuel (emit v ++ rest) = some (v, rest)) ∧
    (∀ x xs rest, costArr (x :: xs) ≤ fuel →
        parseElems fuel (emitArr (x :: xs) ++ ']' :: rest) =
          some (x :: xs, rest)) ∧
    (∀ k w ms rest, costObj ((k, w) :: ms) ≤ fuel →
        parseMembers fuel (emitObj ((k, w) :: ms) ++ '}' :: rest) =
          some ((k, w) :: ms, rest)) := by
  intro fuel
  induction fuel with
  | zero =>
    refine ⟨?_, ?_, ?_⟩
    · intro v rest hc _
      exact absurd hc (by have := cost_pos v; omega)
    · intro x xs rest hc
      exact absurd hc (by have := cost_pos x; rw [costArr_cons]; omega)
    · intro k w ms rest hc
      exact absurd hc (by have := cost_pos w; rw [costObj_cons]; omega)
  | succ f ih =>
    obtain ⟨ihV, ihA, ihO⟩ := ih
    refine ⟨?_, ?_, ?_⟩
    · intro v rest hc hnd
      cases v with
      | null =>
        rw [emit_null]
        exact pv_null f rest
      | bool b =>
        cases b with
        | true => rw [emit_true]; exact pv_true f rest
        | false => rw [emit_false]; exact pv_false f rest
      | int i =>
        rw [emit_int]
        obtain ⟨c, cs, he, h45, h57⟩ := intRepr_head i
        rw [he, List.cons_append]
        have n1 : c ≠ 'n' :=
          char_ne_of_toNat (by intro e; rw [e] at h57; revert h57; decide)
        have n2 : c ≠ 't' :=
          char_ne_of_toNat (by intro e; rw [e] at h57; revert h57; decide)
        have n3 : c ≠ 'f' :=
          char_ne_of_toNat (by intro e; rw [e] at h57; revert h57; decide)
        have n4 : c ≠ '"' :=
          char_ne_of_toNat (by intro e; rw [e] at h45; revert h45; decide)
        have n5 : c ≠ '[' :=
          char_ne_of_toNat (by intro e; rw [e] at h57; revert h57; decide)
        have n6 : c ≠ '{' :=
          char_ne_of_toNat (by intro e; rw [e] at h57; revert h57; decide)
        rw [pv_num f n1 n2 n3 n4 n5 n6, ← List.cons_append, ← he,
          parseNumber_intRepr i rest hnd]
        rfl
      | str s =>
        rw [emit_str, List.cons_append, List.append_assoc,
          List.singleton_append, pv_str f,
          parseStringBody_escList
            (by have := escList_length s.data
                simp only [List.length_append, List.length_cons]
                omega)
            rest]
        rfl
      | arr es =>
        cases es with
        | nil =>
          rw [emit_arr, emitArr_nil, List.nil_append, List.cons_append,
            List.singleton_append, pv_arr f,
            skipWs_cons_false (by decide), pv_arr_dispatch, if_pos rfl]
        | cons x xs =>
          rw [emit_arr, List.cons_append, List.append_assoc,
            List.singleton_append, pv_arr f]
          obtain ⟨c, cs, hsh, hws, hne1, _, _⟩ :=
            emitArr_exposed x xs (']' :: rest)
          rw [hsh, skipWs_cons_false hws, pv_arr_dispatch, if_neg hne1,
            ← hsh, ihA x xs rest (by rw [cost_arr] at hc; omega)]
          rfl
      | obj ms =>
        cases ms with
        | nil =>
          rw [emit_obj, emitObj_nil, List.nil_append, List.cons_append,
            List.singleton_append, pv_obj f,
            skipWs_cons_false (by decide), pv_obj_dispatch, if_pos rfl]
        | cons m ms2 =>
          obtain ⟨k, w⟩ := m
          rw [emit_obj, List.cons_append, List.append_assoc,
            List.singleton_append, pv_obj f]
          obtain ⟨cs, hsh⟩ := emitObj_exposed k w ms2 ('}' :: rest)
          rw [hsh, skipWs_cons_false (by decide), pv_obj_dispatch,
            if_neg (by decide), ← hsh,
            ihO k w ms2 rest (by rw [cost_obj] at hc; omega)]
          rfl
    · intro x xs rest hc
      rw [costArr_cons] at hc
      cases xs with
      | nil =>
        rw [emitArr_one, pe_step,
          ihV x (']' :: rest) (by omega) rfl, pe_close]
      | cons y ys =>
        rw [emitArr_cons, List.append_assoc, List.cons_append,
          List.cons_append, pe_step,
          ihV x (',' :: ' ' :: (emitArr (y :: ys) ++ ']' :: rest)) (by omega)
            rfl,
          pe_comma]
        have hsw : skipWs (emitArr (y :: ys) ++ ']' :: rest) =
            emitArr (y :: ys) ++ ']' :: rest := by
          obtain ⟨c, cs, hsh, hws, _, _, _⟩ :=
            emitArr_exposed y ys (']' :: rest)
          rw [hsh, skipWs_cons_false hws]
        rw [hsw, ihA y ys rest (by omega)]
        rfl
    · intro k w ms rest hc
      rw [costObj_cons] at hc
      cases ms with
      | nil =>
        rw [emitObj_one]
        simp only [List.cons_append, List.append_assoc]
        rw [pm_quote f,
          parseStringBody_escList
            (by have := escList_length k.data
                simp only [List.length_append, List.length_cons]
                omega)
            (':' :: ' ' :: (emit w ++ '}' :: rest)),
          pm_colon, skipWs_emit w ('}' :: rest),
          ihV w ('}' :: rest) (by omega) rfl, pm_vclose]
      | cons m ms2 =>
        obtain ⟨k2, w2⟩ := m
        rw [emitObj_cons]
        simp only [List.cons_append, List.append_assoc]
        rw [pm_quote f,
          parseStringBody_escList
            (by have := escList_length k.data
                simp only [List.length_append, List.length_cons]
                omega)
            (':' :: ' ' ::
              (emit w ++ ',' :: ' ' :: (emitObj ((k2, w2) :: ms2) ++
                '}' :: rest))),
          pm_colon,
          skipWs_emit w
            (',' :: ' ' :: (emitObj ((k2, w2) :: ms2) ++ '}' :: rest)),
          ihV w
            (',' :: ' ' :: (emitObj ((k2, w2) :: ms2) ++ '}' :: rest))
            (by omega) rfl,
          pm_vcomma]
        have hsw : skipWs (emitObj ((k2, w2) :: ms2) ++ '}' :: rest) =
            emitObj ((k2, w2) :: ms2) ++ '}' :: rest := by
          obtain ⟨cs, hsh⟩ := emitObj_exposed k2 w2 ms2 ('}' :: rest)
          rw [hsh, skipWs_cons_false (by decide)]
        rw [hsw, ihO k2 w2 ms2 rest (by omega)]
        rfl

mutual

theorem cost_le (v : Json) : cost v ≤ 2 * (emit v).length + 2 := by
  cases v with
  | null => simp [cost_null, emit_null]
  | bool b => cases b <;> simp [cost_bool, emit_true, emit_false]
  | int i => simp [cost_int]
  | str s => simp [cost_str]
  | arr es =>
    rw [cost_arr, emit_arr]
    have := costArr_le es
    simp only [List.length_cons, List.length_append]
    omega
  | obj ms =>
    rw [cost_obj, emit_obj]
    have := costObj_le ms
    simp only [List.length_cons, List.length_append]
    omega

theorem costArr_le (es : List Json) :
    costArr es ≤ 2 * (emitArr es).length + 5 := by
  match es with
  | [] => simp [costArr_nil, emitArr_nil]
  | [x] =>
    rw [costArr_cons, costArr_nil, emitArr_one]
    have := cost_le x
    omega
  | x :: y :: xs =>
    rw [costArr_cons, emitArr_cons]
    have h1 := cost_le x
    have h2 := costArr_le (y :: xs)
    simp only [List.length_append, List.length_cons]
    omega

theorem costObj_le (ms : List (String × Json)) :
    costObj ms ≤ 2 * (emitObj ms).length + 5 := by
  match ms with
  | [] => simp [costObj_nil, emitObj_nil]
  | [(k, v)] =>
    rw [costObj_cons, costObj_nil, emitObj_one]
    have := cost_le v
    simp only [List.length_cons, List.length_append]
    omega
  | (k, v) :: m :: ms2 =>
    rw [costObj_cons, emitObj_cons]
    have h1 := cost_le v
    have h2 := costObj_le (m :: ms2)
    simp only [List.length_append, List.length_cons]
    omega

end

theorem loads_dumps (v : Json) : loads (dumps v) = some v := by
  obtain ⟨c, cs, hec, hws, _, _, _⟩ := emit_cons v
  have hs : skipWs (emit v) = emit v := by
    rw [hec]
    exact skipWs_cons_false hws cs
  show (do
    let cs := skipWs (emit v)
    let (w, r) ← parseValue (2 * cs.length + 2) cs
    if skipWs r = [] then some w else none) = some v
  rw [hs]
  have hp := (parse_emit (2 * (emit v).length + 2)).1 v []
    (by have := cost_le v; omega) rfl
  rw [List.append_nil] at hp
  show (do
    let (w, r) ← parseValue (2 * (emit v).length + 2) (emit v)
    if skipWs r = [] then some w else none) = some v
  rw [hp]
  rfl

theorem hexChar_ascii {d : Nat} (h : d < 16) :
    32 ≤ (hexChar d).toNat ∧ (hexChar d).toNat ≤ 126 := by
  unfold hexChar
  by_cases h10 : d < 10
  · rw [if_pos h10, toNat_ofNat_small (by omega)]
    omega
  · rw [if_neg h10, toNat_ofNat_small (by omega)]
    omega

theorem intRepr_ascii (i : Int) :
    ∀ c ∈ intRepr i, 32 ≤ c.toNat ∧ c.toNat ≤ 126 := by
  intro c hc
  unfold intRepr at hc
  by_cases h : i < 0
  · rw [if_pos h] at hc
    rcases List.mem_cons.mp hc with rfl | hc
    · decide
    · have := isDigit_iff.mp (natRepr_digits c hc)
      omega
  · rw [if_neg h] at hc
    have := isDigit_iff.mp (natRepr_digits c hc)
    omega

theorem hex4_ascii (n : Nat) :
    ∀ x ∈ hex4 n, 32 ≤ x.toNat ∧ x.toNat ≤ 126 := by
  intro x hx
  simp only [hex4, List.mem_cons, List.mem_singleton] at hx
  rcases hx with rfl | rfl | rfl | hx
  · exact hexChar_ascii (by omega)
  · exact hexChar_ascii (by omega)
  · exact hexChar_ascii (by omega)
  · rcases hx with rfl | hx
    · exact hexChar_ascii (by omega)
    · simp at hx

theorem escChar_ascii (c : Char) :
    ∀ x ∈ escChar c, 32 ≤ x.toNat ∧ x.toNat ≤ 126 := by
  intro x hx
  unfold escChar at hx
  by_cases h1 : c = '"'
  · rw [if_pos h1] at hx
    rcases List.mem_cons.mp hx with rfl | hx
    · decide
    · rcases List.mem_singleton.mp hx with rfl
      decide
  · rw [if_neg h1] at hx
    by_cases h2 : c = '\\'
    · rw [if_pos h2] at hx
      rcases List.mem_cons.mp hx with rfl | hx
      · decide
      · rcases List.mem_singleton.mp hx with rfl
        decide
    · rw [if_neg h2] at hx
      by_cases h3 : c = '\n'
      · rw [if_pos h3] at hx
        rcases List.mem_cons.mp hx with rfl | hx
        · decide
        · rcases List.mem_singleton.mp hx with rfl
          decide
      · rw [if_neg h3] at hx
        by_cases h4 : c = '\r'
        · rw [if_pos h4] at hx
          rcases List.mem_cons.mp hx with rfl | hx
          · decide
          · rcases List.mem_singleton.mp hx with rfl
            decide
        · rw [if_neg h4] at hx
          by_cases h5 : c = '\t'
          · rw [if_pos h5] at hx
            rcases List.mem_cons.mp hx with rfl | hx
            · decide
            · rcases List.mem_singleton.mp hx with rfl
              decide
          · rw [if_neg h5] at hx
            by_cases h6 : c.toNat = 8
            · rw [if_pos h6] at hx
              rcases List.mem_cons.mp hx with rfl | hx
              · decide
              · rcases List.mem_singleton.mp hx with rfl
                decide
            · rw [if_neg h6] at hx
              by_cases h7 : c.toNat = 12
              · rw [if_pos h7] at hx
                rcases List.mem_cons.mp hx with rfl | hx
                · decide
                · rcases List.mem_singleton.mp hx with rfl
                  decide
              · rw [if_neg h7] at hx
                by_cases h8 : 32 ≤ c.toNat ∧ c.toNat ≤ 126
                · rw [if_pos h8] at hx
                  rcases List.mem_singleton.mp hx with rfl
                  exact h8
                · rw [if_neg h8] at hx
                  by_cases h9 : c.toNat < 65536
                  · rw [if_pos h9] at hx
                    rcases List.mem_cons.mp hx with rfl | hx
                    · decide
                    · rcases List.mem_cons.mp hx with rfl | hx
                      · decide
                      · exact hex4_ascii c.toNat x hx
                  · rw [if_neg h9] at hx
                    rcases List.mem_append.mp hx with h | h
                    · rcases List.mem_cons.mp h with rfl | h
                      · decide
                      · rcases List.mem_cons.mp h with rfl | h
                        · decide
                        · exact hex4_ascii _ x h
                    · rcases List.mem_cons.mp h with rfl | h
                      · decide
                      · rcases List.mem_cons.mp h with rfl | h
                        · decide
                        · exact hex4_ascii _ x h

theorem escList_ascii (s : List Char) :
    ∀ x ∈ escList s, 32 ≤ x.toNat ∧ x.toNat ≤ 126 := by
  induction s with
  | nil => intro x hx; simp [escList] at hx
  | cons c cs ih =>
    intro x hx
    rw [escList] at hx
    rcases List.mem_append.mp hx with h | h
    · exact escChar_ascii c x h
    · exact ih x h

mutual

theorem emit_ascii (v : Json) :
    ∀ c ∈ emit v, 32 ≤ c.toNat ∧ c.toNat ≤ 126 := by
  cases v with
  | null =>
    intro c hc
    rw [emit_null] at hc
    rcases List.mem_cons.mp hc with rfl | hc
    · decide
    · rcases List.mem_cons.mp hc with rfl | hc
      · decide
      · rcases List.mem_cons.mp hc with rfl | hc
        · decide
        · rcases List.mem_singleton.mp hc with rfl
          decide
  | bool b =>
    cases b with
    | true =>
      intro c hc
      rw [emit_true] at hc
      rcases List.mem_cons.mp hc with rfl | hc
      · decide
      · rcases List.mem_cons.mp hc with rfl | hc
        · decide
        · rcases List.mem_cons.mp hc with rfl | hc
          · decide
          · rcases List.mem_singleton.mp hc with rfl
            decide
    | false =>
      intro c hc
      rw [emit_false] at hc
      rcases List.mem_cons.mp hc with rfl | hc
      · decide
      · rcases List.mem_cons.mp hc with rfl | hc
        · decide
        · rcases List.mem_cons.mp hc with rfl | hc
          · decide
          · rcases List.mem_cons.mp hc with rfl | hc
            · decide
            · rcases List.mem_singleton.mp hc with rfl
              decide
  | int i =>
    intro c hc
    rw [emit_int] at hc
    exact intRepr_ascii i c hc
  | str s =>
    intro c hc
    rw [emit_str] at hc
    rcases List.mem_cons.mp hc with rfl | hc
    · decide
    · rcases List.mem_append.mp hc with h | h
      · exact escList_ascii s.data c h
      · rcases List.mem_singleton.mp h with rfl
        decide
  | arr es =>
    intro c hc
    rw [emit_arr] at hc
    rcases List.mem_cons.mp hc with rfl | hc
    · decide
    · rcases List.mem_append.mp hc with h | h
      · exact emitArr_ascii es c h
      · rcases List.mem_singleton.mp h with rfl
        decide
  | obj ms =>
    intro c hc
    rw [emit_obj] at hc
    rcases List.mem_cons.mp hc with rfl | hc
    · decide
    · rcases List.mem_append.mp hc with h | h
      · exact emitObj_ascii ms c h
      · rcases List.mem_singleton.mp h with rfl
        decide

theorem emitArr_ascii (es : List Json) :
    ∀ c ∈ emitArr es, 32 ≤ c.toNat ∧ c.toNat ≤ 126 := by
  match es with
  | [] => intro c hc; rw [emitArr_nil] at hc; simp at hc
  | [x] =>
    intro c hc
    rw [emitArr_one] at hc
    exact emit_ascii x c hc
  | x :: y :: xs =>
    intro c hc
    rw [emitArr_cons] at hc
    rcases List.mem_append.mp hc with h | h
    · exact emit_ascii x c h
    · rcases List.mem_cons.mp h with rfl | h
      · decide
      · rcases List.mem_cons.mp h with rfl | h
        · decide
        · exact emitArr_ascii (y :: xs) c h

theorem emitObj_ascii (ms : List (String × Json)) :
    ∀ c ∈ emitObj ms, 32 ≤ c.toNat ∧ c.toNat ≤ 126 := by
  match ms with
  | [] => intro c hc; rw [emitObj_nil] at hc; simp at hc
  | [(k, v)] =>
    intro c hc
    rw [emitObj_one] at hc
    rcases List.mem_cons.mp hc with rfl | hc
    · decide
    · rcases List.mem_append.mp hc with h | h
      · exact escList_ascii k.data c h
      · rcases List.mem_cons.mp h with rfl | h
        · decide
        · rcases List.mem_cons.mp h with rfl | h
          · decide
          · rcases List.mem_cons.mp h with rfl | h
            · decide
            · exact emit_ascii v c h
  | (k, v) :: m :: ms2 =>
    intro c hc
    rw [emitObj_cons] at hc
    rcases List.mem_append.mp hc with h | h
    · rcases List.mem_cons.mp h with rfl | h
      · decide
      · rcases List.mem_append.mp h with h | h
        · exact escList_ascii k.data c h
        · rcases List.mem_cons.mp h with rfl | h
          · decide
          · rcases List.mem_cons.mp h with rfl | h
            · decide
            · rcases List.mem_cons.mp h with rfl | h
              · decide
              · exact emit_ascii v c h
    · rcases List.mem_cons.mp h with rfl | h
      · decide
      · rcases List.mem_cons.mp h with rfl | h
        · decide
        · exact emitObj_ascii (m :: ms2) c h

end

theorem readLine_line {l : List Char} (h : '\n' ∉ l) (t : List Char) :
    readLine (l ++ '\n' :: t) = (l ++ ['\n'], t) := by
  induction l with
  | nil => rfl
  | cons c cs ih =>
    have hc : c ≠ '\n' := fun e => h (by rw [e]; simp)
    show readLine (c :: (cs ++ '\n' :: t)) = _
    rw [readLine, if_neg hc, ih (fun e => h (by simp [e]))]
    rfl

theorem pyStrip_append_newline (l : List Char) :
    pyStrip (l ++ ['\n']) = pyStrip l := by
  unfold pyStrip
  rw [List.reverse_append]
  rfl

theorem pyIsSpace_false_of_toNat {c : Char} (h : 33 ≤ c.toNat) :
    pyIsSpace c = false := by
  have e1 : c ≠ ' ' := char_ne_of_toNat (by intro e; rw [e] at h; revert h; decide)
  have e2 : c ≠ '\t' := char_ne_of_toNat (by intro e; rw [e] at h; revert h; decide)
  have e3 : c ≠ '\n' := char_ne_of_toNat (by intro e; rw [e] at h; revert h; decide)
  have e4 : c ≠ '\r' := char_ne_of_toNat (by intro e; rw [e] at h; revert h; decide)
  have e5 : c ≠ Char.ofNat 11 := char_ne_of_toNat
    (by rw [toNat_ofNat_small (by omega)]; omega)
  have e6 : c ≠ Char.ofNat 12 := char_ne_of_toNat
    (by rw [toNat_ofNat_small (by omega)]; omega)
  simp [pyIsSpace, e1, e2, e3, e4, e5, e6]

theorem pyStrip_eq {l : List Char}
    (h1 : ∃ c cs, l = c :: cs ∧ pyIsSpace c = false)
    (h2 : ∃ c cs, l.reverse = c :: cs ∧ pyIsSpace c = false) :
    pyStrip l = l := by
  obtain ⟨c1, cs1, he1, hs1⟩ := h1
  obtain ⟨c2, cs2, he2, hs2⟩ := h2
  unfold pyStrip
  rw [he2, List.dropWhile_cons, if_neg (by simp [hs2]), ← he2,
    List.reverse_reverse, he1, List.dropWhile_cons, if_neg (by simp [hs1]),
    ← he1]

theorem headerLoop_nil : ∀ fuel cl, headerLoop fuel cl [] = none := by
  intro fuel
  induction fuel with
  | zero => intro cl; rfl
  | succ f ih => intro cl; exact ih cl

theorem headerLoop_succ (fuel : Nat) (cl : Option Nat) (s : List Char) :
    headerLoop (fuel + 1) cl s =
      if (readLine s).1 = [] then headerLoop fuel cl (readLine s).2
      else if pyStrip (readLine s).1 = [] then
        some (processHeaderLine cl (pyStrip (readLine s).1), (readLine s).2)
      else headerLoop fuel (processHeaderLine cl (pyStrip (readLine s).1))
        (readLine s).2 := rfl

theorem headerLoop_block :
    ∀ (hls : List (List Char)), ∀ {fuel : Nat}, ∀ (cl : Option Nat)
      (rest : List Char),
      (∀ l ∈ hls, '\n' ∉ l ∧ pyStrip l ≠ []) → hls.length < fuel →
      headerLoop fuel cl (joinLines hls ++ '\n' :: rest) =
        some (hls.foldl (fun a l => processHeaderLine a (pyStrip l)) cl, rest) := by
  intro hls
  induction hls with
  | nil =>
    intro fuel cl rest _ hf
    cases fuel with
    | zero => omega
    | succ f => rfl
  | cons l ls ih =>
    intro fuel cl rest hwf hf
    cases fuel with
    | zero => simp at hf
    | succ f =>
      obtain ⟨hnl, hstrip⟩ := hwf l (by simp)
      rw [joinLines, List.append_assoc, List.cons_append]
      rw [headerLoop_succ, readLine_line hnl]
      show (if l ++ ['\n'] = [] then _
        else if pyStrip (l ++ ['\n']) = [] then _
        else headerLoop f (processHeaderLine cl (pyStrip (l ++ ['\n'])))
          (joinLines ls ++ '\n' :: rest)) = _
      rw [if_neg (by simp), pyStrip_append_newline, if_neg hstrip,
        ih _ rest (fun x hx => hwf x (by simp [hx])) (by simp at hf; omega)]
      rw [List.foldl_cons]

theorem decodeFrame_block_some (hls : List (List Char)) {fuel : Nat} (n : Nat)
    (rest : List Char) (hwf : ∀ l ∈ hls, '\n' ∉ l ∧ pyStrip l ≠ [])
    (hf : hls.length < fuel)
    (hfold : hls.foldl (fun a l => processHeaderLine a (pyStrip l)) none =
      some n) :
    decodeFrame fuel (joinLines hls ++ '\n' :: rest) =
      match loads ⟨rest.take n⟩ with
      | some v => some (.ok v (rest.drop n))
      | none => some (.jsonError (rest.take n) (rest.drop n)) := by
  unfold decodeFrame
  rw [headerLoop_block hls none rest hwf hf, hfold]

theorem decodeFrame_block_none (hls : List (List Char)) {fuel : Nat}
    (rest : List Char) (hwf : ∀ l ∈ hls, '\n' ∉ l ∧ pyStrip l ≠ [])
    (hf : hls.length < fuel)
    (hfold : hls.foldl (fun a l => processHeaderLine a (pyStrip l)) none =
      none) :
    decodeFrame fuel (joinLines hls ++ '\n' :: rest) =
      match loads ⟨rest⟩ with
      | some v => some (.ok v [])
      | none => some (.jsonError rest []) := by
  unfold decodeFrame
  rw [headerLoop_block hls none rest hwf hf, hfold]

theorem translate_nil : translateNewlines [] = [] := by
  rw [translateNewlines.eq_def]

theorem translate_step (c : Char) (r : List Char) (h : c ≠ '\r') :
    translateNewlines (c :: r) = c :: translateNewlines r := by
  rw [translateNewlines.eq_def]
  show (if c = '\r' then _ else c :: translateNewlines r) = _
  rw [if_neg h]

theorem translate_no_cr {l : List Char} (h : ∀ c ∈ l, c ≠ '\r') :
    translateNewlines l = l := by
  induction l with
  | nil => exact translate_nil
  | cons c cs ih =>
    rw [translate_step c cs (h c (by simp)),
      ih (fun x hx => h x (by simp [hx]))]

theorem translate_append_no_cr {l : List Char} (h : ∀ c ∈ l, c ≠ '\r')
    (t : List Char) :
    translateNewlines (l ++ t) = l ++ translateNewlines t := by
  induction l with
  | nil => rfl
  | cons c cs ih =>
    rw [List.cons_append, translate_step c _ (h c (by simp)),
      ih (fun x hx => h x (by simp [hx])), List.cons_append]

theorem translate_crlf (t : List Char) :
    translateNewlines ('\r' :: '\n' :: t) = '\n' :: translateNewlines t := by
  rw [translateNewlines.eq_def]
  show (if ('\r' : Char) = '\r' then
      (if ('\n' : Char) = '\n' then '\n' :: translateNewlines t
        else '\n' :: translateNewlines ('\n' :: t))
    else _) = _
  rw [if_pos rfl, if_pos rfl]

theorem matchContentLength_digits {ds junk : List Char} (h1 : ds ≠ [])
    (h2 : ∀ c ∈ ds, isDigit c = true) (h3 : noDigitHead junk = true) :
    matchContentLength ("Content-Length: ".data ++ (ds ++ junk)) =
      some (natFromDigits ds) := by
  unfold matchContentLength
  rw [if_pos (List.isPrefixOf_iff_prefix.mpr ⟨ds ++ junk, rfl⟩)]
  have hdrop : ("Content-Length: ".data ++ (ds ++ junk)).drop 16 =
      ds ++ junk := by
    have e : ("Content-Length: ".data).length = 16 := rfl
    rw [← e, List.drop_left]
  rw [hdrop, (takeWhile_digits_append h2 h3).1, if_neg h1]

theorem matchContentLength_no_colon {line : List Char}
    (h : ¬ ("Content-Length: ".data).isPrefixOf line = true) :
    matchContentLength line = none := by
  unfold matchContentLength
  rw [if_neg h]

theorem matchContentLength_no_digit {tail : List Char}
    (h : noDigitHead tail = true) :
    matchContentLength ("Content-Length: ".data ++ tail) = none := by
  unfold matchContentLength
  rw [if_pos (List.isPrefixOf_iff_prefix.mpr ⟨tail, rfl⟩)]
  have hdrop : ("Content-Length: ".data ++ tail).drop 16 = tail := by
    have e : ("Content-Length: ".data).length = 16 := rfl
    rw [← e, List.drop_left]
  rw [hdrop]
  have ht : tail.takeWhile isDigit = [] := by
    cases tail with
    | nil => rfl
    | cons c t =>
      simp only [noDigitHead, Bool.not_eq_true'] at h
      simp [List.takeWhile_cons, h]
  rw [ht, if_pos rfl]

theorem processHeaderLine_update {cl : Option Nat} {ds junk : List Char}
    (h1 : ds ≠ []) (h2 : ∀ c ∈ ds, isDigit c = true)
    (h3 : noDigitHead junk = true) :
    processHeaderLine cl ("Content-Length: ".data ++ (ds ++ junk)) =
      some (natFromDigits ds) := by
  unfold processHeaderLine
  rw [if_pos (List.isPrefixOf_iff_prefix.mpr
    ⟨": ".data ++ (ds ++ junk), by rw [← List.append_assoc]; rfl⟩)]
  rw [matchContentLength_digits h1 h2 h3]

theorem processHeaderLine_keep {cl : Option Nat} {line : List Char}
    (hm : matchContentLength line = none) :
    processHeaderLine cl line = cl := by
  unfold processHeaderLine
  by_cases hpre : ("Content-Length".data).isPrefixOf line = true
  · rw [if_pos hpre, hm]
  · rw [if_neg hpre]

theorem readLine_snd_le : ∀ s : List Char, (readLine s).2.length ≤ s.length := by
  intro s
  induction s with
  | nil => simp [readLine]
  | cons c cs ih =>
    rw [readLine]
    by_cases hc : c = '\n'
    · rw [if_pos hc]
      simp
    · rw [if_neg hc]
      simp only [List.length_cons]
      omega

theorem readLine_cons_snd_le (c : Char) (cs : List Char) :
    (readLine (c :: cs)).2.length ≤ cs.length := by
  rw [readLine]
  by_cases hc : c = '\n'
  · rw [if_pos hc]
  · rw [if_neg hc]
    exact readLine_snd_le cs

theorem readLine_fst_ne_nil (c : Char) (cs : List Char) :
    (readLine (c :: cs)).1 ≠ [] := by
  rw [readLine]
  by_cases hc : c = '\n'
  · rw [if_pos hc]
    simp
  · rw [if_neg hc]
    simp

theorem headerLoop_noBlank :
    ∀ fuel (s : List Char) (g : Nat) (cl : Option Nat), s.length ≤ g →
      noBlankLinesF g s = true → headerLoop fuel cl s = none := by
  intro fuel
  induction fuel with
  | zero => intro s g cl _ _; rfl
  | succ f ih =>
    intro s g cl hg hnb
    cases s with
    | nil => exact headerLoop_nil (f + 1) cl
    | cons c cs =>
      cases g with
      | zero => simp at hg
      | succ g2 =>
        rw [noBlankLinesF, if_neg (by simp)] at hnb
        simp only [Bool.and_eq_true, Bool.not_eq_true',
          decide_eq_false_iff_not] at hnb
        obtain ⟨hs, hnb2⟩ := hnb
        rw [headerLoop_succ, if_neg (readLine_fst_ne_nil c cs), if_neg hs]
        exact ih _ g2 _
          (by have := readLine_cons_snd_le c cs; simp at hg; omega) hnb2

theorem decodeFrame_noBlank {s : List Char} {g : Nat} (hg : s.length ≤ g)
    (hnb : noBlankLinesF g s = true) :
    ∀ fuel, decodeFrame fuel s = none := by
  intro fuel
  unfold decodeFrame
  rw [headerLoop_noBlank fuel s g none hg hnb]

theorem utf8Size_ascii {c : Char} (h : c.toNat ≤ 127) : c.utf8Size = 1 := by
  unfold Char.utf8Size
  rw [if_pos]
  rw [UInt32.le_def, BitVec.le_def]
  exact h

theorem utf8ByteSize_ascii {l : List Char} (h : ∀ c ∈ l, c.toNat ≤ 127) :
    String.utf8ByteSize ⟨l⟩ = l.length := by
  show String.utf8ByteSize.go l = l.length
  induction l with
  | nil => rfl
  | cons c cs ih =>
    show String.utf8ByteSize.go cs + c.utf8Size = cs.length + 1
    rw [utf8Size_ascii (h c (by simp)), ih (fun x hx => h x (by simp [hx]))]

theorem runLoop_nil (fuel : Nat) (st : LoopState) :
    runLoop fuel [] st = (.inputClosed, st) := rfl

theorem runLoop_one (fuel : Nat) (m : String) (st : LoopState) :
    runLoop fuel [m] st =
      if pyLower (pyStrip m.data) = "exit".data ∨
          pyLower (pyStrip m.data) = "quit".data then
        (.exited, st)
      else (.inputClosed, st) := by
  rw [runLoop.eq_def]

theorem runLoop_step2 (fuel : Nat) (m p : String) (rest1 : List String)
    (st : LoopState) :
    runLoop fuel (m :: p :: rest1) st =
      if pyLower (pyStrip m.data) = "exit".data ∨
          pyLower (pyStrip m.data) = "quit".data then
        (.exited, st)
      else
        match (if pyStrip p.data = [] then some (Json.obj [])
          else loads ⟨pyStrip p.data⟩) with
        | none => runLoop fuel rest1 st
        | some params =>
          match decodeFrame fuel st.stream with
          | none =>
            (.hungInHeaders,
              ⟨st.reqId + 1, st.stream,
                st.written ++
                  [encodeFrame (mkRequest st.reqId ⟨pyStrip m.data⟩ params)],
                st.sentIds ++ [st.reqId]⟩)
          | some (.jsonError doc rest2) =>
            (.crashed doc,
              ⟨st.reqId + 1, rest2,
                st.written ++
                  [encodeFrame (mkRequest st.reqId ⟨pyStrip m.data⟩ params)],
                st.sentIds ++ [st.reqId]⟩)
          | some (.ok _ rest2) =>
            runLoop fuel rest1
              ⟨st.reqId + 1, rest2,
                st.written ++
                  [encodeFrame (mkRequest st.reqId ⟨pyStrip m.data⟩ params)],
                st.sentIds ++ [st.reqId]⟩ := by
  rw [runLoop.eq_def]

theorem runLoop_invalid_params (fuel : Nat) (m p : String) (rest : List String)
    (st : LoopState)
    (hm : ¬(pyLower (pyStrip m.data) = "exit".data ∨
      pyLower (pyStrip m.data) = "quit".data))
    (hp : pyStrip p.data ≠ []) (hl : loads ⟨pyStrip p.data⟩ = none) :
    runLoop fuel (m :: p :: rest) st = runLoop fuel rest st := by
  rw [runLoop_step2, if_neg hm, if_neg hp, hl]

theorem runLoop_sentIds (fuel : Nat) (inputs : List String) (st : LoopState) :
    ∃ k, ((runLoop fuel inputs st).2).sentIds =
        st.sentIds ++ List.range' st.reqId k ∧
      ((runLoop fuel inputs st).2).reqId = st.reqId + k := by
  match inputs with
  | [] => exact ⟨0, by simp [runLoop_nil], by simp [runLoop_nil]⟩
  | [m] =>
    rw [runLoop_one]
    by_cases hexit : pyLower (pyStrip m.data) = "exit".data ∨
        pyLower (pyStrip m.data) = "quit".data
    · rw [if_pos hexit]
      exact ⟨0, by simp, by simp⟩
    · rw [if_neg hexit]
      exact ⟨0, by simp, by simp⟩
  | m :: p :: rest1 =>
    rw [runLoop_step2]
    by_cases hexit : pyLower (pyStrip m.data) = "exit".data ∨
        pyLower (pyStrip m.data) = "quit".data
    · rw [if_pos hexit]
      exact ⟨0, by simp, by simp⟩
    · rw [if_neg hexit]
      cases hp : (if pyStrip p.data = [] then some (Json.obj [])
        else loads ⟨pyStrip p.data⟩) with
      | none =>
        obtain ⟨k, h1, h2⟩ := runLoop_sentIds fuel rest1 st
        exact ⟨k, h1, h2⟩
      | some params =>
        cases hd : decodeFrame fuel st.stream with
        | none =>
          refine ⟨1, ?_, ?_⟩
          · show st.sentIds ++ [st.reqId] = st.sentIds ++ List.range' st.reqId 1
            rw [List.range'_one]
          · rfl
        | some rr =>
          cases rr with
          | jsonError doc rest2 =>
            refine ⟨1, ?_, ?_⟩
            · show st.sentIds ++ [st.reqId] =
                st.sentIds ++ List.range' st.reqId 1
              rw [List.range'_one]
            · rfl
          | ok v rest2 =>
            obtain ⟨k, h1, h2⟩ := runLoop_sentIds fuel rest1
              ⟨st.reqId + 1, rest2,
                st.written ++
                  [encodeFrame (mkRequest st.reqId ⟨pyStrip m.data⟩ params)],
                st.sentIds ++ [st.reqId]⟩
            refine ⟨k + 1, ?_, ?_⟩
            · rw [h1]
              show (st.sentIds ++ [st.reqId]) ++ List.range' (st.reqId + 1) k =
                st.sentIds ++ List.range' st.reqId (k + 1)
              rw [List.append_assoc, List.range'_succ]
              rfl
            · rw [h2]
              show st.reqId + 1 + k = st.reqId + (k + 1)
              omega
termination_by inputs.length
decreasing_by all_goals (simp; omega)

theorem natRepr_ne_nil (n : Nat) : natRepr n ≠ [] := by
  obtain ⟨d, ds, he, _, _⟩ := natRepr_head n
  rw [he]
  simp

theorem pyStrip_cl_line (n : Nat) :
    pyStrip ("Content-Length: ".data ++ natRepr n) =
      "Content-Length: ".data ++ natRepr n := by
  apply pyStrip_eq
  · exact ⟨'C', _, rfl, by decide⟩
  · have hrev : (natRepr n).reverse ≠ [] := by
      simp [natRepr_ne_nil n]
    obtain ⟨c2, cs2, he2⟩ := List.exists_cons_of_ne_nil hrev
    refine ⟨c2, cs2 ++ ("Content-Length: ".data).reverse, ?_, ?_⟩
    · rw [List.reverse_append, he2, List.cons_append]
    · have hc2 : c2 ∈ natRepr n := by
        have : c2 ∈ (natRepr n).reverse := by rw [he2]; simp
        exact List.mem_reverse.mp this
      have := isDigit_iff.mp (natRepr_digits c2 hc2)
      exact pyIsSpace_false_of_toNat (by omega)

theorem newline_not_mem_cl_line (n : Nat) :
    '\n' ∉ "Content-Length: ".data ++ natRepr n := by
  intro hmem
  rcases List.mem_append.mp hmem with h | h
  · revert h
    decide
  · have hd := isDigit_iff.mp (natRepr_digits _ h)
    have e : ('\n').toNat = 10 := rfl
    omega

theorem cl_line_wf (n : Nat) :
    ∀ l ∈ [("Content-Length: ".data ++ natRepr n)],
      '\n' ∉ l ∧ pyStrip l ≠ [] := by
  intro l hl
  rcases List.mem_singleton.mp hl with rfl
  refine ⟨newline_not_mem_cl_line n, ?_⟩
  rw [pyStrip_cl_line n]
  simp

theorem cl_line_fold (n : Nat) :
    [("Content-Length: ".data ++ natRepr n)].foldl
      (fun a l => processHeaderLine a (pyStrip l)) none = some n := by
  simp only [List.foldl_cons, List.foldl_nil]
  rw [pyStrip_cl_line n,
    show "Content-Length: ".data ++ natRepr n =
      "Content-Length: ".data ++ (natRepr n ++ []) from by rw [List.append_nil],
    processHeaderLine_update (natRepr_ne_nil n) natRepr_digits
      (show noDigitHead [] = true from rfl),
    natFromDigits_natRepr]

theorem decodeFrame_translate_encode (v : Json) (f : Nat) :
    decodeFrame (f + 2) (translateNewlines (encodeFrame v)) =
      some (.ok v []) := by
  have hN : ∀ c ∈ natRepr (emit v).length, c ≠ '\r' := by
    intro c hc
    have hd := isDigit_iff.mp (natRepr_digits c hc)
    exact char_ne_of_toNat (by
      intro e
      rw [e] at hd
      revert hd
      decide)
  have hemit : ∀ c ∈ emit v, c ≠ '\r' := by
    intro c hc
    have hd := emit_ascii v c hc
    exact char_ne_of_toNat (by
      intro e
      rw [e] at hd
      revert hd
      decide)
  have htr : translateNewlines (encodeFrame v) =
      "Content-Length: ".data ++
        (natRepr (emit v).length ++ ('\n' :: '\n' :: emit v)) := by
    unfold encodeFrame
    rw [List.append_assoc, translate_append_no_cr (by decide),
      translate_append_no_cr hN, translate_crlf, translate_crlf,
      translate_no_cr hemit]
  have hshape : "Content-Length: ".data ++
      (natRepr (emit v).length ++ ('\n' :: '\n' :: emit v)) =
      joinLines [("Content-Length: ".data ++ natRepr (emit v).length)] ++
        '\n' :: emit v := by
    rw [joinLines, joinLines]
    simp [List.append_assoc]
  rw [htr, hshape,
    decodeFrame_block_some _ (emit v).length (emit v)
      (cl_line_wf (emit v).length) (by simp) (cl_line_fold (emit v).length),
    List.take_length, List.drop_length]
  have hl2 : loads ⟨emit v⟩ = some v := loads_dumps v
  rw [hl2]

/-- C1: on every finite stream that ends before a blank header-terminator
line has been seen, the header-reading loop of `send_request` never
finishes, no matter how many iterations it is allowed (`decodeFrame`
returns `none` for every fuel bound, modelling the infinite
`if not line: continue` retry); the code has no `TransportClosedError` at
all, contradicting the required end-of-stream behaviour. -/
theorem decode_spins_on_closed_stream {s : List Char} {g : Nat}
    (hg : s.length ≤ g) (hnb : noBlankLinesF g s = true) :
    ∀ fuel, decodeFrame fuel s = none :=
  decodeFrame_noBlank hg hnb

theorem decode_spins_on_closed_stream_witness :
    (("Content-Length: 5".data).length ≤ 20 ∧
      noBlankLinesF 20 "Content-Length: 5".data = true) ∧
    decodeFrame 1000 "Content-Length: 5".data = none :=
  ⟨⟨by decide, rfl⟩,
    decode_spins_on_closed_stream (s := "Content-Length: 5".data) (g := 20)
      (by decide) rfl 1000⟩

/-- C2: decoding a transport fed exactly with the encoding of a Request
(after the text-mode newline translation the reader performs) yields the
very Request value that was serialized as the body, with the whole stream
consumed. -/
theorem decode_of_encode_roundtrip (i : Int) (m : String) (p : Json) :
    ∀ f, decodeFrame (f + 2)
        (translateNewlines (encodeFrame (mkRequest i m p))) =
      some (.ok (mkRequest i m p) []) := fun f =>
  decodeFrame_translate_encode (mkRequest i m p) f

/-- C3: the encoder emits exactly one `Content-Length: <N>` header line
where `N` is the UTF-8 byte length of the serialized body, then CRLF, then
a blank line's CRLF, then the body itself with nothing appended after
it. -/
theorem encode_exact_layout (i : Int) (m : String) (p : Json) :
    encodeFrame (mkRequest i m p) =
      "Content-Length: ".data ++
        natRepr ((dumps (mkRequest i m p)).utf8ByteSize) ++
        '\r' :: '\n' :: '\r' :: '\n' :: (dumps (mkRequest i m p)).data := by
  have hb : (dumps (mkRequest i m p)).utf8ByteSize =
      (emit (mkRequest i m p)).length :=
    utf8ByteSize_ascii (fun c hc => by
      have := emit_ascii (mkRequest i m p) c hc
      omega)
  rw [hb]
  rfl

/-- C4: when a header block ends without any stored `Content-Length`,
`send_request` does not fail with a `MissingLengthError` (no such error
exists in the code); `content_length` is `None`, so
`proc.stdout.read(None)` reads the whole remaining stream as the body and
hands it to `json.loads`, even succeeding when that remainder happens to
be valid JSON. -/
theorem missing_length_reads_to_eof (hls : List (List Char)) {f : Nat}
    (rest : List Char) (hwf : ∀ l ∈ hls, '\n' ∉ l ∧ pyStrip l ≠ [])
    (hf : hls.length < f)
    (hfold : hls.foldl (fun a l => processHeaderLine a (pyStrip l)) none =
      none) :
    decodeFrame f (joinLines hls ++ '\n' :: rest) =
      match loads ⟨rest⟩ with
      | some v => some (.ok v [])
      | none => some (.jsonError rest []) :=
  decodeFrame_block_none hls rest hwf hf hfold

theorem missing_length_reads_to_eof_witness :
    ((∀ l ∈ [("X-Header: 1".data)], '\n' ∉ l ∧ pyStrip l ≠ []) ∧
      [("X-Header: 1".data)].foldl
        (fun a l => processHeaderLine a (pyStrip l)) none = none) ∧
    decodeFrame 3 (joinLines ["X-Header: 1".data] ++ '\n' :: "{}".data) =
      some (.ok (.obj []) []) := by
  refine ⟨⟨by decide, rfl⟩, ?_⟩
  rw [missing_length_reads_to_eof ["X-Header: 1".data] "{}".data (by decide)
    (by decide) rfl]
  rfl

/-- C5: when the declared `Content-Length` is `n` but the stream holds
only `k ≤ n` further characters, `proc.stdout.read(n)` just returns the
short read and `json.loads` runs on the truncated body: there is no
`TruncatedBodyError`; the call either returns a parsed value (when the
prefix happens to be valid JSON) or raises a plain `JSONDecodeError`. -/
theorem truncated_body_short_read (hls : List (List Char)) {f : Nat}
    (n : Nat) (rest : List Char)
    (hwf : ∀ l ∈ hls, '\n' ∉ l ∧ pyStrip l ≠ []) (hf : hls.length < f)
    (hfold : hls.foldl (fun a l => processHeaderLine a (pyStrip l)) none =
      some n)
    (hlen : rest.length ≤ n) :
    decodeFrame f (joinLines hls ++ '\n' :: rest) =
      match loads ⟨rest⟩ with
      | some v => some (.ok v [])
      | none => some (.jsonError rest []) := by
  rw [decodeFrame_block_some hls n rest hwf hf hfold,
    List.take_of_length_le hlen, List.drop_eq_nil_of_le hlen]

theorem truncated_body_short_read_witness :
    ((∀ l ∈ [("Content-Length: 5".data)], '\n' ∉ l ∧ pyStrip l ≠ []) ∧
      [("Content-Length: 5".data)].foldl
        (fun a l => processHeaderLine a (pyStrip l)) none = some 5 ∧
      ("{}".data).length ≤ 5) ∧
    decodeFrame 3 (joinLines ["Content-Length: 5".data] ++ '\n' :: "{}".data) =
      some (.ok (.obj []) []) := by
  refine ⟨⟨by decide, rfl, by decide⟩, ?_⟩
  rw [truncated_body_short_read ["Content-Length: 5".data] 5 "{}".data
    (by decide) (by decide) rfl (by decide)]
  rfl

/-- C6: a complete header block declaring length `n` followed by a body of
exactly `n` characters that is not valid JSON makes the decode path fail
with the `json.loads` error, which carries the raw body it was parsing. -/
theorem malformed_body_fails_with_doc (hls : List (List Char)) {f : Nat}
    (n : Nat) (body : List Char)
    (hwf : ∀ l ∈ hls, '\n' ∉ l ∧ pyStrip l ≠ []) (hf : hls.length < f)
    (hfold : hls.foldl (fun a l => processHeaderLine a (pyStrip l)) none =
      some n)
    (hlen : body.length = n) (hbad : loads ⟨body⟩ = none) :
    decodeFrame f (joinLines hls ++ '\n' :: body) =
      some (.jsonError body []) := by
  rw [decodeFrame_block_some hls n body hwf hf hfold, ← hlen,
    List.take_length, List.drop_length, hbad]

theorem malformed_body_fails_with_doc_witness :
    ((∀ l ∈ [("Content-Length: 7".data)], '\n' ∉ l ∧ pyStrip l ≠ []) ∧
      [("Content-Length: 7".data)].foldl
        (fun a l => processHeaderLine a (pyStrip l)) none = some 7 ∧
      ("notjson".data).length = 7 ∧ loads ⟨"notjson".data⟩ = none) ∧
    decodeFrame 3
        (joinLines ["Content-Length: 7".data] ++ '\n' :: "notjson".data) =
      some (.jsonError "notjson".data []) := by
  refine ⟨⟨by decide, rfl, by decide, rfl⟩, ?_⟩
  exact malformed_body_fails_with_doc ["Content-Length: 7".data] 7
    "notjson".data (by decide) (by decide) rfl (by decide) rfl

/-- C7: a protocol-level error does not surface to the interactive loop as
a failed call result: the `json.JSONDecodeError` raised inside
`send_request` propagates uncaught (there is no try/except around the
call) and the process dies; here a malformed response body crashes the
loop instead of letting it report and prompt again. -/
theorem malformed_response_crashes_loop :
    (runLoop 3 ["ping", "{}"]
        (initState "Content-Length: 3\n\nbad".data)).1 =
      .crashed "bad".data := rfl

/-- C8: across a whole session the ids placed in the requests actually
sent are strictly increasing, start at 1 when any request is sent at all,
and are never reused. -/
theorem sent_ids_strictly_increasing (fuel : Nat) (inputs : List String)
    (stream : List Char) :
    List.Chain' (· < ·)
        ((runLoop fuel inputs (initState stream)).2).sentIds ∧
      ((runLoop fuel inputs (initState stream)).2).sentIds.Nodup ∧
      (∀ j ∈ ((runLoop fuel inputs (initState stream)).2).sentIds, 1 ≤ j) ∧
      (((runLoop fuel inputs (initState stream)).2).sentIds ≠ [] →
        ((runLoop fuel inputs (initState stream)).2).sentIds.head? =
          some 1) := by
  obtain ⟨k, h1, _⟩ := runLoop_sentIds fuel inputs (initState stream)
  have h1' : ((runLoop fuel inputs (initState stream)).2).sentIds =
      List.range' 1 k := by
    rw [h1]
    rfl
  rw [h1']
  refine ⟨(List.pairwise_lt_range' 1 k 1 (by omega)).chain',
    List.nodup_range' 1 k, ?_, ?_⟩
  · intro j hj
    exact (List.mem_range'_1.mp hj).1
  · intro hne
    cases k with
    | zero => simp at hne
    | succ k2 =>
      rw [List.range'_succ]
      rfl

/-- C9: `Content-Length` parsing in the header loop is lenient: a stripped
line of the form `Content-Length: <digits><anything>` stores the value of
the leading digit run even when junk follows the digits, while a line
that starts with `Content-Length` but does not match
`Content-Length: <digits>` — no digits after the colon-space, or no
colon-space at all — leaves the previously stored length unchanged. -/
theorem content_length_parse_lenient :
    (∀ (cl : Option Nat) (ds junk : List Char), ds ≠ [] →
        (∀ c ∈ ds, isDigit c = true) → noDigitHead junk = true →
        processHeaderLine cl ("Content-Length: ".data ++ (ds ++ junk)) =
          some (natFromDigits ds)) ∧
    (∀ (cl : Option Nat) (tail : List Char), noDigitHead tail = true →
        processHeaderLine cl ("Content-Length: ".data ++ tail) = cl) ∧
    (∀ (cl : Option Nat) (line : List Char),
        ¬ ("Content-Length: ".data).isPrefixOf line = true →
        processHeaderLine cl line = cl) := by
  refine ⟨fun cl ds junk h1 h2 h3 => processHeaderLine_update h1 h2 h3,
    fun cl tail h => processHeaderLine_keep (matchContentLength_no_digit h),
    fun cl line h => processHeaderLine_keep (matchContentLength_no_colon h)⟩

theorem content_length_parse_lenient_witness :
    processHeaderLine none ("Content-Length: ".data ++
        ("12".data ++ "junk".data)) = some 12 ∧
    processHeaderLine (some 7) ("Content-Length: ".data ++ "abc".data) =
      some 7 := by
  constructor
  · rw [content_length_parse_lenient.1 none "12".data "junk".data
      (by decide) (by decide) (by decide)]
    rfl
  · exact content_length_parse_lenient.2.1 (some 7) "abc".data (by decide)

/-- C10: a params string that fails to parse as JSON ends the iteration
before the request is built — the two inputs are consumed and the run
continues exactly as if they had never happened, so nothing is written and
the id counter does not move; consequently the ids of the requests a
session actually sends always form the gapless sequence 1, 2, 3, …. -/
theorem invalid_params_no_send_gapless (fuel : Nat) :
    (∀ (m p : String) (rest : List String) (st : LoopState),
        ¬(pyLower (pyStrip m.data) = "exit".data ∨
          pyLower (pyStrip m.data) = "quit".data) →
        pyStrip p.data ≠ [] → loads ⟨pyStrip p.data⟩ = none →
        runLoop fuel (m :: p :: rest) st = runLoop fuel rest st) ∧
    (∀ (inputs : List String) (stream : List Char), ∃ k,
        ((runLoop fuel inputs (initState stream)).2).sentIds =
          List.range' 1 k) := by
  constructor
  · exact fun m p rest st hm hp hl =>
      runLoop_invalid_params fuel m p rest st hm hp hl
  · intro inputs stream
    obtain ⟨k, h1, _⟩ := runLoop_sentIds fuel inputs (initState stream)
    refine ⟨k, ?_⟩
    rw [h1]
    rfl

theorem invalid_params_no_send_gapless_witness :
    runLoop 1 ["ping", "\x7bbad"] (initState []) =
      runLoop 1 [] (initState []) :=
  (invalid_params_no_send_gapless 1).1 "ping" "\x7bbad" [] (initState [])
    (by decide) (by decide) rfl

end McpClient
